import Mathlib

/-!
Verification of the album-catalog/media-cache service.

This file gives a shallow embedding, in Lean 4, of the parts of the
source that the checked claims are about:

* `youtube_cache_manager.py` — the on-disk LRU media cache
  (`YouTubeCacheManager`): metadata map, `get_total_size`,
  `cleanup_if_needed`, `add_file`, `mark_accessed`, `get_cached_file`,
  `update_max_size`.
* `youtube_download_manager.py` — the download manager
  (`YouTubeDownloadManager`): task record, `download_video`, the worker
  begin/finish halves of `_execute_download`, and a step relation over
  manager states.
* `db_manager.py` — the playlist-item operations
  (`add_playlist_item_verified`, `delete_playlist_item`,
  `reorder_playlist_items`) and `update_album_playable_urls`.
* `platform_verifier.py` — the scoring/acceptance logic of
  `search_youtube_directly`.
* `genre_parser.py` — the genre-string parser (`parse_genre_string`
  and its helpers), executable on concrete inputs.

Modelling conventions:

* Machine strings that are only compared for equality stay `String`;
  strings whose characters are inspected are `List Char` (Lean's
  `String` primitives do not reduce in the kernel).
* Timestamps are naturals.  The source stores `datetime.utcnow`
  ISO-8601 strings and compares them lexicographically, which agrees
  with chronological order; only the order is ever used.
* Python `dict`s are insertion-ordered association lists; assignment
  to an existing key keeps its position, new keys append (CPython
  semantics).
* Python float confidences in the genre parser are decimal multiples
  of 0.1; they are computed exactly in tenths and exposed as `ℚ`.
-/

/-! ## Generic helpers: insertion-ordered dictionaries -/

/-- Lookup in an insertion-ordered association list (Python `d[k]` / `k in d`). -/
def dictLookup {α : Type} : List (String × α) → String → Option α
  | [], _ => none
  | p :: rest, k => if p.1 = k then some p.2 else dictLookup rest k

/-- Python `d[k] = v`: overwrite in place if the key exists, else append. -/
def dictInsert {α : Type} : List (String × α) → String → α → List (String × α)
  | [], k, v => [(k, v)]
  | p :: rest, k, v => if p.1 = k then (k, v) :: rest else p :: dictInsert rest k v

/-- Python `del d[k]` (no-op when the key is absent, matching guarded deletes). -/
def dictRemove {α : Type} : List (String × α) → String → List (String × α)
  | [], _ => []
  | p :: rest, k => if p.1 = k then dictRemove rest k else p :: dictRemove rest k

/-! ## Media Cache (`youtube_cache_manager.py`) -/

/-- One value of the cache metadata map
(`{filename, size_bytes, last_accessed, download_date}`). -/
structure CacheEntry where
  filename : String
  size_bytes : Nat
  last_accessed : Nat
  download_date : Nat
deriving DecidableEq

/-- State of `YouTubeCacheManager` together with its cache directory.
`disk` maps a filename to the `stat().st_size` of the file on disk. -/
structure CacheState where
  metadata : List (String × CacheEntry)
  disk : List (String × Nat)
  max_size_bytes : Nat
deriving DecidableEq

/-- Sum of the on-disk sizes of a list of metadata entries. -/
def sumSizes (disk : List (String × Nat)) (entries : List (String × CacheEntry)) : Nat :=
  (entries.map (fun p => (dictLookup disk p.2.filename).getD 0)).sum

/-- Total on-disk size of the files tracked by the metadata map. -/
def totalSize (s : CacheState) : Nat := sumSizes s.disk s.metadata

/-- Every tracked file exists on disk (the cache's normal operating mode:
`add_file` is called right after a download lands the file, and evictions
remove file and entry together). -/
def Consistent (s : CacheState) : Prop :=
  ∀ p ∈ s.metadata, (dictLookup s.disk p.2.filename).isSome = true

instance (s : CacheState) : Decidable (Consistent s) := by
  unfold Consistent; infer_instance

/-- `get_total_size`: walks the metadata, summing `stat().st_size` of files
that exist and dropping entries whose file is missing.  Returns the surviving
metadata (the source mutates `self.metadata` and saves it) and the total. -/
def get_total_size_aux (disk : List (String × Nat)) :
    List (String × CacheEntry) → List (String × CacheEntry) × Nat
  | [] => ([], 0)
  | p :: rest =>
    let r := get_total_size_aux disk rest
    match dictLookup disk p.2.filename with
    | some sz => (p :: r.1, sz + r.2)
    | none => (r.1, r.2)

/-- `YouTubeCacheManager.get_total_size` as a state transformer. -/
def get_total_size (s : CacheState) : CacheState × Nat :=
  let r := get_total_size_aux s.disk s.metadata
  ({ s with metadata := r.1 }, r.2)

/-- Sort key of `_get_lru_files`: ascending `last_accessed`. -/
def lruLE (a b : String × CacheEntry) : Prop :=
  a.2.last_accessed ≤ b.2.last_accessed

instance : DecidableRel lruLE := fun a b => Nat.decLe a.2.last_accessed b.2.last_accessed

instance : IsTotal (String × CacheEntry) lruLE :=
  ⟨fun a b => Nat.le_total a.2.last_accessed b.2.last_accessed⟩

instance : IsTrans (String × CacheEntry) lruLE :=
  ⟨fun _ _ _ h h' => Nat.le_trans h h'⟩

/-- `_get_lru_files`: metadata items sorted by `last_accessed`, oldest first
(Python's sort is stable; so is insertion sort). -/
def get_lru_files (m : List (String × CacheEntry)) : List (String × CacheEntry) :=
  List.insertionSort lruLE m

/-- The eviction loop of `cleanup_if_needed`: walk the LRU-sorted entries;
stop when `current_size <= target_size`; otherwise unlink the file (when it
exists), subtract its size, and drop the metadata entry either way.
Returns (evicted ids, remaining disk, final `current_size`). -/
def cleanupLoop (target : Int) :
    List (String × CacheEntry) → List (String × Nat) → Int →
    List String × List (String × Nat) × Int
  | [], disk, current => ([], disk, current)
  | p :: rest, disk, current =>
    if current ≤ target then ([], disk, current)
    else
      match dictLookup disk p.2.filename with
      | some sz =>
        let r := cleanupLoop target rest (dictRemove disk p.2.filename) (current - sz)
        (p.1 :: r.1, r.2)
      | none =>
        let r := cleanupLoop target rest disk current
        (p.1 :: r.1, r.2)

/-- `YouTubeCacheManager.cleanup_if_needed(new_file_size_estimate)`. -/
def cleanup_if_needed (s : CacheState) (new_file_size_estimate : Nat) : CacheState :=
  let g := get_total_size s
  let s1 := g.1
  let current : Int := g.2
  if current + new_file_size_estimate ≤ (s.max_size_bytes : Int) then s1
  else
    let lru_files := get_lru_files s1.metadata
    let target_size : Int := (s.max_size_bytes : Int) - new_file_size_estimate
    let r := cleanupLoop target_size lru_files s1.disk current
    { s1 with
      metadata := s1.metadata.filter (fun p => ¬ r.1.contains p.1),
      disk := r.2.1 }

/-- `YouTubeCacheManager.add_file(video_id, filename, size_bytes)`: records the
metadata entry with `last_accessed = download_date = now`.  It performs no
eviction and does not touch the disk (the file was already written by the
downloader). -/
def add_file (s : CacheState) (video_id filename : String) (size_bytes now : Nat) :
    CacheState :=
  let e : CacheEntry :=
    { filename := filename, size_bytes := size_bytes,
      last_accessed := now, download_date := now }
  { s with metadata := dictInsert s.metadata video_id e }

/-- `YouTubeCacheManager.mark_accessed(video_id)`. -/
def mark_accessed (s : CacheState) (video_id : String) (now : Nat) : CacheState :=
  if (dictLookup s.metadata video_id).isSome then
    { s with metadata := s.metadata.map (fun p =>
        if p.1 = video_id then (p.1, { p.2 with last_accessed := now }) else p) }
  else s

/-- `YouTubeCacheManager.get_cached_file(video_id)`: returns the cached
filename when the entry exists and its file is on disk (updating
`last_accessed`); drops the entry when the file is missing. -/
def get_cached_file (s : CacheState) (video_id : String) (now : Nat) :
    Option String × CacheState :=
  match dictLookup s.metadata video_id with
  | some e =>
    if (dictLookup s.disk e.filename).isSome then
      (some e.filename, mark_accessed s video_id now)
    else
      (none, { s with metadata := dictRemove s.metadata video_id })
  | none => (none, s)

/-- `YouTubeCacheManager.update_max_size(new_max_size_gb)`.
`int(gb * 1024**3)` is modelled by the floor (the configured range is
positive, where `int` truncation and floor agree). -/
def update_max_size (s : CacheState) (new_max_size_gb : ℚ) : CacheState :=
  let old_size_gb : ℚ := (s.max_size_bytes : ℚ) / (1024 * 1024 * 1024)
  let s1 : CacheState :=
    { s with max_size_bytes := (⌊new_max_size_gb * (1024 * 1024 * 1024)⌋).toNat }
  if new_max_size_gb < old_size_gb then cleanup_if_needed s1 0 else s1

/-! ## List-of-characters string helpers

Lean's `String` primitives do not reduce in the kernel, so every string
whose characters the source inspects is handled as a `List Char`
(obtained from literals via `String.data`). -/

/-- Python `str.lower()` (=ASCII case folding; the inputs at issue are ASCII). -/
def toLowerCl (l : List Char) : List Char := l.map Char.toLower

/-- Python `str.strip()` with no arguments. -/
def trimCl (l : List Char) : List Char :=
  ((l.dropWhile Char.isWhitespace).reverse.dropWhile Char.isWhitespace).reverse

/-- Python `str.strip('()')`, used on the matched temporal pattern. -/
def stripParens (l : List Char) : List Char :=
  let isParen : Char → Bool := fun c => c == '(' || c == ')'
  ((l.dropWhile isParen).reverse.dropWhile isParen).reverse

/-- Helper for `str.split()`: accumulates the current word (reversed). -/
def splitWsAux : List Char → List Char → List (List Char)
  | [], acc => if acc.isEmpty then [] else [acc.reverse]
  | c :: rest, acc =>
    if c.isWhitespace then
      if acc.isEmpty then splitWsAux rest [] else acc.reverse :: splitWsAux rest []
    else splitWsAux rest (c :: acc)

/-- Python `str.split()` (split on whitespace runs, no empty parts). -/
def splitWs (l : List Char) : List (List Char) := splitWsAux l []

/-- Helper for separator splits: accumulates the current part (reversed). -/
def splitAnyAux (seps : List Char) : List Char → List Char → List (List Char)
  | [], acc => [acc.reverse]
  | c :: rest, acc =>
    if seps.contains c then acc.reverse :: splitAnyAux seps rest []
    else splitAnyAux seps rest (c :: acc)

/-- Python `re.split('[..]', s)` / `str.split(sep)`: split at every occurrence
of any of the separator characters, keeping empty parts. -/
def splitOnAny (seps : List Char) (l : List Char) : List (List Char) :=
  splitAnyAux seps l []

/-- Python `sub in s` (substring containment). -/
def containsSub : List Char → List Char → Bool
  | [], sub => sub.isEmpty
  | c :: rest, sub => sub.isPrefixOf (c :: rest) || containsSub rest sub

/-- Python `' '.join(words)`. -/
def joinSpace (words : List (List Char)) : List Char := List.intercalate [' '] words

/-- All indices at which `pat` occurs in the scanned list, counting from `i`.
For the parenthesised temporal literals no two occurrences can overlap, so
this agrees with `re.finditer` (which yields non-overlapping matches). -/
def allOccs (pat : List Char) : List Char → Nat → List Nat
  | [], _ => []
  | c :: rest, i =>
    (if pat.isPrefixOf (c :: rest) then [i] else []) ++ allOccs pat rest (i + 1)

/-- Python `s.replace(pat, '')`: drop every occurrence of `pat`
(the temporal literals cannot overlap themselves). -/
def removeAllOcc (pat hay : List Char) : List Char :=
  if pat.isEmpty then hay
  else
    let ps := allOccs pat hay 0
    (hay.enum.filter
      (fun pr => ! ps.any (fun p => decide (p ≤ pr.1 ∧ pr.1 < p + pat.length)))).map Prod.snd

/-- Python `str.capitalize()`: first character upper-cased, the rest lower-cased. -/
def capitalizeWord : List Char → List Char
  | [] => []
  | c :: rest => c.toUpper :: rest.map Char.toLower

/-- Helper for `str.title()`: the flag records whether the previous character
was alphabetic. -/
def titleAux : Bool → List Char → List Char
  | _, [] => []
  | prevAlpha, c :: rest =>
    if c.isAlpha then
      (if prevAlpha then c.toLower else c.toUpper) :: titleAux true rest
    else c :: titleAux false rest

/-- Python `str.title()`. -/
def titleCase (l : List Char) : List Char := titleAux false l

/-- Python `list(set(xs))` where only membership and later sorting matter:
drop repeated elements, keeping first occurrences (CPython's set order is
unspecified; every list this is applied to in the proved statements has at
most one element). -/
def dedupKeepFirstAux : List (List Char) → List (List Char) → List (List Char)
  | [], _ => []
  | x :: rest, seen =>
    if seen.any (fun y => y == x) then dedupKeepFirstAux rest seen
    else x :: dedupKeepFirstAux rest (x :: seen)

/-- Deduplicate keeping first occurrences (see the doc comment above). -/
def dedupKeepFirst (l : List (List Char)) : List (List Char) :=
  dedupKeepFirstAux l []

/-- Python string `<=` (code-point lexicographic), for `sorted(...)`. -/
def clLe : List Char → List Char → Bool
  | [], _ => true
  | _ :: _, [] => false
  | x :: xs, y :: ys => if x == y then clLe xs ys else decide (x.toNat < y.toNat)

/-- Generic association-list lookup keyed by `List Char` (Python dict in the
genre parser: keys are strings that get inspected character-wise). -/
def clLookup {α : Type} : List (List Char × α) → List Char → Option α
  | [], _ => none
  | p :: rest, k => if p.1 = k then some p.2 else clLookup rest k

/-- Python `d[k] = v` for `List Char` keys. -/
def clInsert {α : Type} : List (List Char × α) → List Char → α → List (List Char × α)
  | [], k, v => [(k, v)]
  | p :: rest, k, v => if p.1 = k then (k, v) :: rest else p :: clInsert rest k v

/-! ## Genre Normalizer (`genre_parser.py`) -/

/-- Exact value of the decimal literal `n/10` used by the parser's float
arithmetic (all confidence constants and increments in the source are
multiples of 0.1, which the computation keeps exactly). -/
def tenths (n : Nat) : ℚ := (n : ℚ) / 10

/-- `ParsedGenre` dataclass. -/
structure ParsedGenre where
  main : List Char
  modifiers : List (List Char)
  related : List (List Char)
  period : Option (List Char)
  confidence : ℚ
deriving DecidableEq

/-- `self.temporal_patterns` (each `\(word\)` regex is a literal). -/
def temporal_patterns : List (List Char) :=
  ["(early)".data, "(mid)".data, "(middle)".data, "(later)".data,
   "(late)".data, "(now)".data, "(current)".data, "(recent)".data]

/-- `self.metal_indicators`. -/
def metal_indicators : List (List Char) :=
  ["metal".data, "core".data, "grind".data, "doom".data, "black".data,
   "death".data, "thrash".data, "heavy".data, "power".data, "speed".data,
   "sludge".data, "stoner".data, "drone".data]

/-- `self.modifier_patterns`. -/
def modifier_patterns : List (List Char) :=
  ["atmospheric".data, "melodic".data, "progressive".data, "symphonic".data,
   "technical".data, "brutal".data, "raw".data, "ambient".data,
   "experimental".data, "industrial".data, "epic".data, "aggressive".data,
   "dark".data, "blackened".data, "old school".data, "modern".data,
   "traditional".data, "avant-garde".data, "psychedelic".data, "post".data,
   "neo".data, "proto".data, "retro".data, "depressive".data, "funeral".data,
   "viking".data, "pagan".data, "folk".data, "gothic".data, "nu".data]

/-- `self.non_metal_indicators`. -/
def non_metal_indicators : List (List Char) :=
  ["rock".data, "punk".data, "hardcore".data, "jazz".data, "classical".data,
   "electronic".data, "ambient".data, "folk".data, "blues".data,
   "country".data, "noise".data, "shoegaze".data, "emo".data, "indie".data,
   "alternative".data, "experimental".data]

/-- `self.genre_aliases`. -/
def genre_aliases : List (List Char × List Char) :=
  [("BM".data, "Black Metal".data), ("DM".data, "Death Metal".data),
   ("TM".data, "Thrash Metal".data), ("HM".data, "Heavy Metal".data),
   ("PM".data, "Power Metal".data),
   ("Blackened Death Metal".data, "Black/Death Metal".data),
   ("Death/Black Metal".data, "Black/Death Metal".data),
   ("Thrash/Death Metal".data, "Death/Thrash Metal".data),
   ("Melodic Death Metal".data, "Melodic Death Metal".data),
   ("Technical Death Metal".data, "Technical Death Metal".data),
   ("Brutal Death Metal".data, "Brutal Death Metal".data)]

/-- The `special_cases` table of `_capitalize_genre`. -/
def capitalize_special_cases : List (List Char × List Char) :=
  [("metal".data, "Metal".data), ("black".data, "Black".data),
   ("death".data, "Death".data), ("thrash".data, "Thrash".data),
   ("heavy".data, "Heavy".data), ("doom".data, "Doom".data),
   ("power".data, "Power".data), ("folk".data, "Folk".data),
   ("progressive".data, "Progressive".data), ("symphonic".data, "Symphonic".data),
   ("gothic".data, "Gothic".data), ("industrial".data, "Industrial".data),
   ("post".data, "Post".data), ("rock".data, "Rock".data),
   ("hardcore".data, "Hardcore".data), ("punk".data, "Punk".data)]

/-- `GenreParser._capitalize_genre`. -/
def capitalize_genre (genre : List Char) : List Char :=
  joinSpace ((splitWs genre).map (fun word =>
    match clLookup capitalize_special_cases (toLowerCl word) with
    | some v => v
    | none => capitalizeWord word))

/-- `GenreParser.normalize_genre`. -/
def normalize_genre (genre : List Char) : List Char :=
  if genre.isEmpty then []
  else
    let normalized := joinSpace (splitWs (trimCl genre))
    let normalized :=
      match clLookup genre_aliases normalized with
      | some v => v
      | none => normalized
    capitalize_genre normalized

/-- `GenreParser.extract_temporal_info`: for each temporal pattern (matched
case-insensitively against the original string), record
`temporal_info[last genre segment before the match] = period` and delete the
matched text from the evolving clean string.  Returns
`(clean_string.strip(), temporal_info)`. -/
def extract_temporal_info (genre_string : List Char) :
    List Char × List (List Char × List Char) :=
  let lower := toLowerCl genre_string
  let r := temporal_patterns.foldl (fun st pat =>
    (allOccs (toLowerCl pat) lower 0).foldl (fun st2 i =>
      let matched := (genre_string.drop i).take pat.length
      let period := toLowerCl (stripParens matched)
      let start_pos := i - 50
      let segment := trimCl ((genre_string.take i).drop start_pos)
      let genre_parts := splitOnAny ['/', ',', ';'] segment
      let st3 :=
        match genre_parts.getLast? with
        | some lastPart =>
          let last_genre := trimCl lastPart
          if last_genre.isEmpty then st2 else (st2.1, clInsert st2.2 last_genre period)
        | none => st2
      (removeAllOcc matched st3.1, st3.2)) st)
    (genre_string, ([] : List (List Char × List Char)))
  (trimCl r.1, r.2)

/-- `GenreParser._split_genre_segments`. -/
def split_genre_segments (genre_string : List Char) : List (List Char) :=
  let segments :=
    if genre_string.contains ';' then splitOnAny [';'] genre_string
    else splitOnAny [',', '/'] genre_string
  (segments.map trimCl).filter (fun seg => ! seg.isEmpty)

/-- `GenreParser._is_metal_genre`. -/
def is_metal_genre (words_lower : List (List Char)) : Bool :=
  words_lower.any (fun word => metal_indicators.any (fun ind => containsSub word ind)) ||
  (let genre_text := joinSpace words_lower
   "metal".data.isSuffixOf genre_text || "core".data.isSuffixOf genre_text ||
   ["black".data, "death".data, "thrash".data, "doom".data, "heavy".data,
     "power".data, "speed".data].any (fun pat => containsSub genre_text pat) ||
   containsSub genre_text "grind".data)

/-- `GenreParser._is_related_genre`. -/
def is_related_genre (words_lower : List (List Char)) : Bool :=
  non_metal_indicators.any (fun ind => containsSub (joinSpace words_lower) ind)

/-- The `multi_word_modifiers` list of `_extract_modifiers`. -/
def multi_word_modifiers : List (List Char) := ["old school".data, "avant-garde".data]

/-- `GenreParser._extract_modifiers`. -/
def extract_modifiers (words_lower : List (List Char)) : List (List Char) :=
  let mods := words_lower.foldl (fun acc word =>
    if modifier_patterns.any (fun m => m == word) then acc ++ [titleCase word]
    else if word == "old".data && words_lower.any (fun w => w == "school".data) then
      acc ++ ["old school".data.map id |> titleCase]
    else acc) []
  let genre_text := joinSpace words_lower
  let mods := multi_word_modifiers.foldl (fun acc m =>
    if containsSub genre_text m && ! acc.any (fun x => x == titleCase m) then
      acc ++ [titleCase m]
    else acc) mods
  dedupKeepFirst mods

/-- The `common_patterns` list of `_calculate_confidence`. -/
def common_patterns : List (List Char) :=
  ["black metal".data, "death metal".data, "thrash metal".data, "heavy metal".data]

/-- `GenreParser._calculate_confidence`, computed exactly in tenths. -/
def calculate_confidence (genre : List Char) (is_metal : Bool)
    (modifiers : List (List Char)) : ℚ :=
  let words_lower := (splitWs genre).map toLowerCl
  let c := 5
  let c := if is_metal then
      c + 3 + (if words_lower.any (fun w => containsSub w "metal".data) then 2 else 0)
    else c
  let c := c + modifiers.length * 1
  let c := c + (if common_patterns.any (fun p => containsSub (toLowerCl genre) p) then 2 else 0)
  tenths (min c 10)

/-- `GenreParser._classify_with_ai_model`: the placeholder always returns
`None`, falling back to pattern matching. -/
def classify_with_ai_model (_genre : List Char) : Option ParsedGenre := none

/-- `GenreParser._identify_genre_components`. -/
def identify_genre_components (genre : List Char)
    (temporal_info : List (List Char × List Char)) : Option ParsedGenre :=
  if genre.isEmpty then none
  else
    match classify_with_ai_model genre with
    | some ai => some { ai with period := clLookup temporal_info genre }
    | none =>
      let period := clLookup temporal_info genre
      let words := (splitWs genre).map trimCl
      let words_lower := words.map toLowerCl
      let is_metal := is_metal_genre words_lower
      let detected_modifiers := extract_modifiers words_lower
      if is_metal then
        some { main := genre, modifiers := detected_modifiers, related := [],
               period := period,
               confidence := calculate_confidence genre true detected_modifiers }
      else if is_related_genre words_lower then
        some { main := [], modifiers := [], related := [genre], period := period,
               confidence := tenths 8 }
      else
        some { main := genre, modifiers := [], related := [], period := period,
               confidence := tenths 5 }

/-- `GenreParser._parse_single_segment` (the caller strips the segment). -/
def parse_single_segment (segment : List Char)
    (temporal_info : List (List Char × List Char)) : List ParsedGenre :=
  let normalized_segment := normalize_genre segment
  if normalized_segment.contains '/' then
    ((splitOnAny ['/'] normalized_segment).map trimCl).filterMap
      (fun part => identify_genre_components part temporal_info)
  else
    (identify_genre_components normalized_segment temporal_info).toList

/-- `GenreParser._merge_genre_instances` (the base instance absorbs the rest:
union of modifier/related sets, sorted; first period wins; confidences are
averaged). -/
def merge_genre_instances : List ParsedGenre → ParsedGenre
  | [] => { main := [], modifiers := [], related := [], period := none, confidence := 0 }
  | g :: rest =>
    let all_modifiers := rest.foldl (fun acc h => acc ++ h.modifiers) g.modifiers
    let all_related := rest.foldl (fun acc h => acc ++ h.related) g.related
    let total_confidence := rest.foldl (fun acc h => acc + h.confidence) g.confidence
    let period := rest.foldl (fun acc h =>
      if h.period.isSome && acc.isNone then h.period else acc) g.period
    { main := g.main,
      modifiers := List.insertionSort (fun a b => clLe a b = true)
        (dedupKeepFirst all_modifiers),
      related := List.insertionSort (fun a b => clLe a b = true)
        (dedupKeepFirst all_related),
      period := period,
      confidence := total_confidence / (rest.length + 1 : ℚ) }

/-- `GenreParser._deduplicate_genres`: group by `main` (in first-seen order,
like the Python dict) and merge each group. -/
def deduplicate_genres (genres : List ParsedGenre) : List ParsedGenre :=
  (dedupKeepFirst (genres.map (·.main))).map (fun key =>
    match genres.filter (fun g => g.main == key) with
    | [g] => g
    | group => merge_genre_instances group)

/-- `GenreParser.parse_genre_string`. -/
def parse_genre_string (genre_string : List Char) : List ParsedGenre :=
  if (trimCl genre_string).isEmpty then []
  else
    let r := extract_temporal_info genre_string
    let segments := split_genre_segments r.1
    let parsed := segments.foldl
      (fun acc seg => acc ++ parse_single_segment (trimCl seg) r.2) []
    deduplicate_genres parsed

/-- The scenario-S2 input string. -/
def genreInputS2 : List Char :=
  "Doom/Death Metal (early); Progressive Death/Black Metal (mid)".data

/-! ## Download Manager (`youtube_download_manager.py`) -/

/-- `DownloadStatus` enum. -/
inductive DownloadStatus where
  | queued
  | downloading
  | completed
  | failed
  | cancelled
deriving DecidableEq

/-- `DownloadTask` dataclass (the fields the claims touch).  `tid` is a
model-level handle identifying the Python task object; `max_attempts`
defaults to 3 and is never overridden at creation. -/
structure DownloadTask where
  tid : Nat
  video_id : String
  status : DownloadStatus
  attempts : Nat
  max_attempts : Nat
deriving DecidableEq

/-- The download outcome observed by `_execute_download`'s try/except:
success, a non-timeout exception, or `asyncio.TimeoutError`. -/
inductive DownloadOutcome where
  | success (file_size : Nat)
  | failure
  | timeout
deriving DecidableEq

/-- Head of `_execute_download`: `task.attempts += 1`,
`task.status = DOWNLOADING`. -/
def execute_download_begin (t : DownloadTask) : DownloadTask :=
  { t with attempts := t.attempts + 1, status := DownloadStatus.downloading }

/-- Result of the tail of `_execute_download`: the mutated task, whether it
was put back on the queue, the seconds slept before the re-queue, and the
statistics counter increments. -/
structure ExecFinishResult where
  task : DownloadTask
  requeued : Bool
  backoff_seconds : Option Nat
  total_delta : Nat
  success_delta : Nat
  failed_delta : Nat
deriving DecidableEq

/-- Tail of `_execute_download` (after the begin half ran, so `t.attempts`
is the just-finished attempt number): on success mark COMPLETED and count it;
on `asyncio.TimeoutError` mark FAILED and, with attempts remaining, re-queue
immediately; on any other exception mark FAILED and, with attempts remaining,
sleep `min(2 ** attempts, 30)` then re-queue; with no attempts remaining
count a failure. -/
def execute_download_finish (t : DownloadTask) (o : DownloadOutcome) : ExecFinishResult :=
  match o with
  | DownloadOutcome.success _ =>
    { task := { t with status := DownloadStatus.completed }, requeued := false,
      backoff_seconds := none, total_delta := 1, success_delta := 1, failed_delta := 0 }
  | DownloadOutcome.timeout =>
    let t' := { t with status := DownloadStatus.failed }
    if t.attempts < t.max_attempts then
      { task := t', requeued := true, backoff_seconds := none,
        total_delta := 0, success_delta := 0, failed_delta := 0 }
    else
      { task := t', requeued := false, backoff_seconds := none,
        total_delta := 1, success_delta := 0, failed_delta := 1 }
  | DownloadOutcome.failure =>
    let t' := { t with status := DownloadStatus.failed }
    if t.attempts < t.max_attempts then
      { task := t', requeued := true, backoff_seconds := some (min (2 ^ t.attempts) 30),
        total_delta := 0, success_delta := 0, failed_delta := 0 }
    else
      { task := t', requeued := false, backoff_seconds := none,
        total_delta := 1, success_delta := 0, failed_delta := 1 }

/-- State of `YouTubeDownloadManager`: its cache manager, every task object
created so far, the `asyncio.Queue` (FIFO of task handles), the
`active_downloads` dict, the statistics counters, `max_parallel`, and the
next fresh task handle. -/
structure ManagerState where
  cache : CacheState
  tasks : List DownloadTask
  queue : List Nat
  active_downloads : List (String × Nat)
  total_downloads : Nat
  successful_downloads : Nat
  failed_downloads : Nat
  max_parallel : Nat
  next_tid : Nat
deriving DecidableEq

/-- `YouTubeDownloadManager.download_video(video_id)`: return the cached path
if `get_cached_file` hits (with its side effects); else return `None`,
creating and queueing a fresh task unless `video_id` is already in
`active_downloads`.  (The `priority` flag only changes a log line.) -/
def download_video (s : ManagerState) (video_id : String) (now : Nat) :
    Option String × ManagerState :=
  let c := get_cached_file s.cache video_id now
  match c.1 with
  | some path => (some path, { s with cache := c.2 })
  | none =>
    let s' := { s with cache := c.2 }
    if (dictLookup s'.active_downloads video_id).isSome then (none, s')
    else
      let t : DownloadTask :=
        { tid := s'.next_tid, video_id := video_id,
          status := DownloadStatus.queued, attempts := 0, max_attempts := 3 }
      (none,
        { s' with
          tasks := s'.tasks ++ [t],
          active_downloads := dictInsert s'.active_downloads video_id s'.next_tid,
          queue := s'.queue ++ [s'.next_tid],
          next_tid := s'.next_tid + 1 })

/-- The task object a handle refers to. -/
def getTask (s : ManagerState) (tid : Nat) : Option DownloadTask :=
  s.tasks.find? (fun t => decide (t.tid = tid))

/-- A worker takes the task at the head of the FIFO queue and runs the begin
half of `_execute_download`. -/
def worker_begin (s : ManagerState) : ManagerState :=
  match s.queue with
  | [] => s
  | tid :: rest =>
    { s with
      queue := rest,
      tasks := s.tasks.map (fun t => if t.tid = tid then execute_download_begin t else t) }

/-- Number of tasks currently in `DOWNLOADING` (the semaphore slots held in
this model, where backoff sleeps are folded into the atomic finish step). -/
def countDownloading (s : ManagerState) : Nat :=
  (s.tasks.filter (fun t => decide (t.status = DownloadStatus.downloading))).length

/-- A worker finishes `_execute_download` for task `tid` with outcome `o`:
apply the finish half, append the task back to the queue when it re-queues,
bump the counters, record a successful download in the cache manager, and —
the `finally:` block — drop `task.video_id` from `active_downloads`
(whichever handle is registered there).  The cached filename is modelled by
the video id (the source uses `{video_id}.webm` or the delivered extension;
the name itself plays no role in the claims). -/
def worker_finish (s : ManagerState) (tid : Nat) (o : DownloadOutcome) (now : Nat) :
    ManagerState :=
  match getTask s tid with
  | none => s
  | some t =>
    let r := execute_download_finish t o
    let cache' := match o with
      | DownloadOutcome.success file_size =>
        add_file s.cache t.video_id t.video_id file_size now
      | _ => s.cache
    { s with
      cache := cache',
      tasks := s.tasks.map (fun u => if u.tid = tid then r.task else u),
      queue := if r.requeued then s.queue ++ [tid] else s.queue,
      active_downloads := dictRemove s.active_downloads t.video_id,
      total_downloads := s.total_downloads + r.total_delta,
      successful_downloads := s.successful_downloads + r.success_delta,
      failed_downloads := s.failed_downloads + r.failed_delta }

/-- Interleaving semantics of the download manager: any caller may invoke
`download_video`; a worker may pick the queue head when a semaphore slot is
free; a worker may finish a `DOWNLOADING` task with any outcome.  Each step
is one span between `await` suspension points of the source. -/
inductive ManagerStep : ManagerState → ManagerState → Prop where
  | request (s : ManagerState) (video_id : String) (now : Nat) :
      ManagerStep s (download_video s video_id now).2
  | pick (s : ManagerState) (h : s.queue ≠ [])
      (hsem : countDownloading s < s.max_parallel) :
      ManagerStep s (worker_begin s)
  | finish (s : ManagerState) (tid : Nat) (o : DownloadOutcome) (now : Nat)
      (h : ∃ t, getTask s tid = some t ∧ t.status = DownloadStatus.downloading) :
      ManagerStep s (worker_finish s tid o now)

/-- Reachability under manager steps. -/
def ManagerReachable : ManagerState → ManagerState → Prop :=
  Relation.ReflTransGen ManagerStep

/-- A fresh manager: empty cache, no tasks, default `max_parallel = 3`. -/
def mgrInit : ManagerState :=
  { cache := { metadata := [], disk := [], max_size_bytes := 5368709120 },
    tasks := [], queue := [], active_downloads := [],
    total_downloads := 0, successful_downloads := 0, failed_downloads := 0,
    max_parallel := 3, next_tid := 0 }

/-- Trace: first request for video `v`. -/
def mgrS1 : ManagerState := (download_video mgrInit "v" 0).2

/-- Trace: a worker starts task 0. -/
def mgrS2 : ManagerState := worker_begin mgrS1

/-- Trace: attempt 1 of task 0 fails (non-timeout); the task is re-queued and
deregistered from `active_downloads` by the `finally:` block. -/
def mgrS3 : ManagerState := worker_finish mgrS2 0 DownloadOutcome.failure 1

/-- Trace: a second request for `v` during task 0's retry interval creates a
second task for the same id. -/
def mgrS4 : ManagerState := (download_video mgrS3 "v" 2).2

/-- Trace: a worker starts the re-queued task 0 again. -/
def mgrS5 : ManagerState := worker_begin mgrS4

/-- Trace: another worker starts task 1 — two concurrent downloads of `v`. -/
def mgrS6 : ManagerState := worker_begin mgrS5

/-! ## Playlist items (`db_manager.py`) -/

/-- A `playlist_items` row (the columns the position invariant concerns).
`id` is the SQLite rowid. -/
structure PlaylistItem where
  id : Nat
  position : Nat
deriving DecidableEq

/-- The rows of one playlist, in rowid-creation order, plus the next rowid. -/
structure PlaylistState where
  items : List PlaylistItem
  next_item_id : Nat
deriving DecidableEq

/-- `SELECT COALESCE(MAX(position), 0) + 1 FROM playlist_items WHERE ...`. -/
def next_position (items : List PlaylistItem) : Nat :=
  (items.map (·.position)).foldr max 0 + 1

/-- `AlbumsDatabase.add_playlist_item_verified` (the album/platform/url
columns do not interact with positions and are omitted). -/
def add_playlist_item_verified (s : PlaylistState) : PlaylistState :=
  { items := s.items ++ [{ id := s.next_item_id, position := next_position s.items }],
    next_item_id := s.next_item_id + 1 }

/-- `AlbumsDatabase.delete_playlist_item`: deletes the row; no renumbering. -/
def delete_playlist_item (s : PlaylistState) (item_id : Nat) : PlaylistState :=
  { s with items := s.items.filter (fun it => decide (it.id ≠ item_id)) }

/-- `AlbumsDatabase.reorder_playlist_items`: one UPDATE per listed id, setting
`position = 1, 2, ...` in list order (ids not in the playlist match no row;
playlist rows not listed keep their positions). -/
def reorder_playlist_items (s : PlaylistState) (item_ids : List Nat) : PlaylistState :=
  { s with
    items := (List.enumFrom 1 item_ids).foldl
      (fun acc pr => acc.map (fun it =>
        if it.id = pr.2 then { it with position := pr.1 } else it))
      s.items }

/-- The multiset of positions of a playlist. -/
def playlistPositions (s : PlaylistState) : List Nat := s.items.map (·.position)

/-- The position invariant: positions are exactly `{1..|items|}`. -/
def PositionsDense (s : PlaylistState) : Prop :=
  (playlistPositions s).Perm (List.range' 1 s.items.length)

instance (s : PlaylistState) : Decidable (PositionsDense s) :=
  List.decidablePerm _ _

/-- Three items appended to an empty playlist (positions 1, 2, 3). -/
def plEx3 : PlaylistState :=
  add_playlist_item_verified (add_playlist_item_verified
    (add_playlist_item_verified { items := [], next_item_id := 0 }))

/-- The middle item (id 1, position 2) deleted. -/
def plExDel : PlaylistState := delete_playlist_item plEx3 1

/-! ## Album playable-URL update (`db_manager.py`) -/

/-- The per-platform verification dict handed to the store
(`{found, embed_url, title, match_score, type/embed_code}`). -/
structure VerificationResult where
  found : Bool
  embed_url : Option String
  title : Option String
  match_score : Option Nat
  embed_type : Option String
  embed_code : Option String
deriving DecidableEq

/-- The album columns `update_album_playable_urls` touches. -/
structure AlbumRow where
  youtube_embed_url : Option String
  youtube_verified_title : Option String
  youtube_verification_score : Option Nat
  youtube_embed_type : Option String
  bandcamp_embed_url : Option String
  bandcamp_verified_title : Option String
  bandcamp_verification_score : Option Nat
  bandcamp_embed_code : Option String
  playable_verified : Bool
deriving DecidableEq

/-- `AlbumsDatabase.update_album_playable_urls`: copy the youtube fields when
`youtube_result['found']` is truthy, likewise for bandcamp
(`embed_code` defaulting to ''); if either block ran, also set
`playable_verified = 1`.  Returns whether an UPDATE was issued (the row is
assumed to exist, as `rowcount > 0` checks). -/
def update_album_playable_urls (row : AlbumRow)
    (youtube_result bandcamp_result : Option VerificationResult) : AlbumRow × Bool :=
  let ytFound := match youtube_result with
    | some r => r.found
    | none => false
  let bcFound := match bandcamp_result with
    | some r => r.found
    | none => false
  let row1 := match youtube_result with
    | some r =>
      if r.found then
        { row with
          youtube_embed_url := r.embed_url,
          youtube_verified_title := r.title,
          youtube_verification_score := r.match_score,
          youtube_embed_type := r.embed_type }
      else row
    | none => row
  let row2 := match bandcamp_result with
    | some r =>
      if r.found then
        { row1 with
          bandcamp_embed_url := r.embed_url,
          bandcamp_verified_title := r.title,
          bandcamp_verification_score := r.match_score,
          bandcamp_embed_code := some (r.embed_code.getD "") }
      else row1
    | none => row1
  if ytFound || bcFound then ({ row2 with playable_verified := true }, true)
  else (row2, false)

/-- The §3 invariant: a playable-verified album has at least one embed URL. -/
def PlayableInvariant (row : AlbumRow) : Prop :=
  row.playable_verified = true →
    (row.youtube_embed_url.isSome = true ∨ row.bandcamp_embed_url.isSome = true)

instance (row : AlbumRow) : Decidable (PlayableInvariant row) := by
  unfold PlayableInvariant; infer_instance

/-! ## Verifier scoring (`platform_verifier.py`, `search_youtube_directly`) -/

/-- One extracted search result.  The three fuzzywuzzy ratio values for this
title (`token_sort_ratio(band+album, title)`, `partial_ratio(album, title)`,
`partial_ratio(band, title)`, all lowercased, integer 0..100) come from the
external library and enter the model as data. -/
structure YouTubeSearchResult where
  title : List Char
  is_playlist : Bool
  full_score : Nat
  album_score : Nat
  band_score : Nat
deriving DecidableEq

/-- `boost = 10 if 'full album' in title_lower else 0`. -/
def full_album_boost (r : YouTubeSearchResult) : Nat :=
  if containsSub (toLowerCl r.title) "full album".data then 10 else 0

/-- The per-candidate score of `search_youtube_directly` (before the stored
`min(score, 100)` cap): averaged branch only when both partial ratios are
strictly above 70. -/
def candidate_score (r : YouTubeSearchResult) : Nat :=
  let boost := full_album_boost r
  if r.band_score > 70 ∧ r.album_score > 70 then
    max r.full_score ((r.album_score + r.band_score) / 2) + boost
  else
    max r.full_score r.album_score + boost

/-- The `matches` list: candidates whose (uncapped) score reaches
`min_similarity`, stored with the capped score. -/
def build_matches (results : List YouTubeSearchResult) (min_similarity : Nat) :
    List (List Char × Nat) :=
  results.filterMap (fun r =>
    if min_similarity ≤ candidate_score r then
      some (r.title, min (candidate_score r) 100)
    else none)

/-- Sort relation of `matches.sort(key=score, reverse=True)`. -/
def matchGE (a b : List Char × Nat) : Prop := b.2 ≤ a.2

instance : DecidableRel matchGE := fun a b => Nat.decLe b.2 a.2

instance : IsTotal (List Char × Nat) matchGE :=
  ⟨fun a b => Nat.le_total b.2 a.2⟩

instance : IsTrans (List Char × Nat) matchGE :=
  ⟨fun _ _ _ h h' => Nat.le_trans h' h⟩

/-- `best_match`: the head of the score-descending sort of `matches`
(`None` when no candidate was accepted). -/
def best_match (results : List YouTubeSearchResult) (min_similarity : Nat) :
    Option (List Char × Nat) :=
  (List.insertionSort matchGE (build_matches results min_similarity)).head?

/-- The claim's scoring formula, followed word for word (branch taken when
`band ≥ 70 ∧ album ≥ 70`, capped by 100), for comparison with the source's
strict `> 70` branch. -/
def spec_candidate_score (r : YouTubeSearchResult) : Nat :=
  min 100
    ((if r.band_score ≥ 70 ∧ r.album_score ≥ 70 then
        max r.full_score ((r.album_score + r.band_score) / 2)
      else max r.full_score r.album_score) + full_album_boost r)

/-- A candidate with `full = 0`, `album = 90`, `band = 70` (no boost), on
which the source's strict-inequality branch and the claim's formula differ. -/
def ytBoundaryResult : YouTubeSearchResult :=
  { title := "x".data, is_playlist := false,
    full_score := 0, album_score := 90, band_score := 70 }

/-! ## Concrete cache states used in the statements -/

/-- A 20-byte file admitted into a cache with a 10-byte quota. -/
def cacheTiny : CacheState :=
  { metadata := [], disk := [("f.webm", 20)], max_size_bytes := 10 }

/-- Three 10-byte files, quota 25, access order b (1) < a (2) < c (3). -/
def cacheLruEx : CacheState :=
  { metadata :=
      [("a", { filename := "fa", size_bytes := 10, last_accessed := 2, download_date := 0 }),
       ("b", { filename := "fb", size_bytes := 10, last_accessed := 1, download_date := 0 }),
       ("c", { filename := "fc", size_bytes := 10, last_accessed := 3, download_date := 0 })],
    disk := [("fa", 10), ("fb", 10), ("fc", 10)],
    max_size_bytes := 25 }

/-- A consistent two-file cache (7 + 9 bytes) with a generous quota. -/
def cacheOk : CacheState :=
  { metadata :=
      [("u", { filename := "fu", size_bytes := 7, last_accessed := 1, download_date := 0 }),
       ("v", { filename := "fv", size_bytes := 9, last_accessed := 2, download_date := 0 })],
    disk := [("fu", 7), ("fv", 9)],
    max_size_bytes := 100 }

/-- A cache whose metadata references a file missing from disk. -/
def cacheStale : CacheState :=
  { metadata :=
      [("u", { filename := "fu", size_bytes := 7, last_accessed := 1, download_date := 0 }),
       ("v", { filename := "fv", size_bytes := 9, last_accessed := 2, download_date := 0 })],
    disk := [("fu", 7)],
    max_size_bytes := 100 }

/-! # Theorems -/

/-! ### Dictionary lemmas -/

theorem dictLookup_dictRemove_ne {α : Type} (m : List (String × α)) (k k' : String)
    (h : k' ≠ k) : dictLookup (dictRemove m k) k' = dictLookup m k' := by
  induction m with
  | nil => rfl
  | cons p rest ih =>
    by_cases hpk : p.1 = k
    · have hk' : ¬ p.1 = k' := by rw [hpk]; exact fun hh => h hh.symm
      simp [dictRemove, dictLookup, hpk, hk', Ne.symm h, ih]
    · by_cases hpk' : p.1 = k'
      · simp [dictRemove, dictLookup, hpk, hpk', h]
      · simp [dictRemove, dictLookup, hpk, hpk', ih]


/-! ### Basic size-accounting lemmas -/

theorem sumSizes_nil (d : List (String × Nat)) : sumSizes d [] = 0 := rfl

theorem sumSizes_cons (d : List (String × Nat)) (p : String × CacheEntry)
    (l : List (String × CacheEntry)) :
    sumSizes d (p :: l) = (dictLookup d p.2.filename).getD 0 + sumSizes d l := by
  simp [sumSizes]

theorem sumSizes_append (d : List (String × Nat)) (l₁ l₂ : List (String × CacheEntry)) :
    sumSizes d (l₁ ++ l₂) = sumSizes d l₁ + sumSizes d l₂ := by
  simp [sumSizes]

theorem sumSizes_congr {d d' : List (String × Nat)} {l : List (String × CacheEntry)}
    (h : ∀ q ∈ l, dictLookup d' q.2.filename = dictLookup d q.2.filename) :
    sumSizes d' l = sumSizes d l := by
  induction l with
  | nil => rfl
  | cons p rest ih =>
    rw [sumSizes_cons, sumSizes_cons, h p (by simp),
      ih (fun q hq => h q (by simp [hq]))]

theorem sumSizes_perm (d : List (String × Nat)) {l l' : List (String × CacheEntry)}
    (h : l.Perm l') : sumSizes d l = sumSizes d l' := by
  unfold sumSizes
  exact List.Perm.sum_eq (h.map _)

theorem get_total_size_aux_of_present (d : List (String × Nat))
    (l : List (String × CacheEntry))
    (h : ∀ p ∈ l, (dictLookup d p.2.filename).isSome = true) :
    get_total_size_aux d l = (l, sumSizes d l) := by
  induction l with
  | nil => rfl
  | cons p rest ih =>
    obtain ⟨sz, hsz⟩ := Option.isSome_iff_exists.mp (h p (by simp))
    rw [get_total_size_aux, ih (fun q hq => h q (by simp [hq]))]
    simp [hsz, sumSizes_cons]

theorem get_total_size_of_consistent (s : CacheState) (hc : Consistent s) :
    get_total_size s = (s, totalSize s) := by
  unfold get_total_size totalSize
  rw [get_total_size_aux_of_present s.disk s.metadata hc]

/-! ### Specification of the eviction loop -/

/-- Behaviour of `cleanupLoop` on a disk that holds every listed file, with
pairwise-distinct filenames: the evicted ids are a front segment of the list,
the final running size is the initial one minus the evicted bytes, files of
surviving entries are untouched, the loop stops only when at or below target
or out of entries, and every eviction happened strictly above target. -/
theorem cleanupLoop_spec (target : Int) (fs : List (String × CacheEntry)) :
    ∀ (d : List (String × Nat)) (c : Int),
    (∀ p ∈ fs, (dictLookup d p.2.filename).isSome = true) →
    ((fs.map (fun p => p.2.filename)).Nodup) →
    (cleanupLoop target fs d c).1 =
        (fs.take (cleanupLoop target fs d c).1.length).map Prod.fst ∧
    (cleanupLoop target fs d c).2.2 =
        c - (sumSizes d (fs.take (cleanupLoop target fs d c).1.length) : Int) ∧
    (∀ p ∈ fs.drop (cleanupLoop target fs d c).1.length,
        dictLookup (cleanupLoop target fs d c).2.1 p.2.filename =
          dictLookup d p.2.filename) ∧
    ((cleanupLoop target fs d c).2.2 ≤ target ∨
        (cleanupLoop target fs d c).1.length = fs.length) ∧
    (∀ m < (cleanupLoop target fs d c).1.length,
        target < c - (sumSizes d (fs.take m) : Int)) := by
  induction fs with
  | nil =>
    intro d c _ _
    refine ⟨rfl, by simp [cleanupLoop, sumSizes_nil], by simp [cleanupLoop], ?_, ?_⟩
    · right; rfl
    · intro m hm; simp [cleanupLoop] at hm
  | cons p rest ih =>
    intro d c hpres hnd
    by_cases hstop : c ≤ target
    · have hunfold0 : cleanupLoop target (p :: rest) d c = ([], d, c) := by
        simp [cleanupLoop, hstop]
      refine ⟨?_, ?_, ?_, ?_, ?_⟩ <;> rw [hunfold0]
      · rfl
      · simp [sumSizes_nil]
      · simp
      · left; exact hstop
      · intro m hm; simp at hm
    · obtain ⟨sz, hsz⟩ := Option.isSome_iff_exists.mp (hpres p (by simp))
      have hndrest : (rest.map (fun q => q.2.filename)).Nodup :=
        (List.nodup_cons.mp hnd).2
      have hfn_notin : p.2.filename ∉ rest.map (fun q => q.2.filename) :=
        (List.nodup_cons.mp hnd).1
      -- lookups in the shrunken disk agree on all the remaining entries
      have hlook : ∀ q ∈ rest,
          dictLookup (dictRemove d p.2.filename) q.2.filename =
            dictLookup d q.2.filename := by
        intro q hq
        apply dictLookup_dictRemove_ne
        intro heq
        exact hfn_notin (heq ▸ List.mem_map_of_mem (fun z => z.2.filename) hq)
      have hpres' : ∀ q ∈ rest,
          (dictLookup (dictRemove d p.2.filename) q.2.filename).isSome = true := by
        intro q hq; rw [hlook q hq]; exact hpres q (by simp [hq])
      obtain ⟨ih1, ih2, ih3, ih4, ih5⟩ :=
        ih (dictRemove d p.2.filename) (c - sz) hpres' hndrest
      have hunfold : cleanupLoop target (p :: rest) d c =
          ((p.1 :: (cleanupLoop target rest (dictRemove d p.2.filename) (c - sz)).1),
            (cleanupLoop target rest (dictRemove d p.2.filename) (c - sz)).2) := by
        simp [cleanupLoop, hstop, hsz]
      set r := cleanupLoop target rest (dictRemove d p.2.filename) (c - sz) with hr
      have hsub : ∀ m, ∀ q ∈ rest.take m, q ∈ rest := fun m q hq => List.take_subset m rest hq
      have hsum_take : ∀ m, sumSizes (dictRemove d p.2.filename) (rest.take m)
          = sumSizes d (rest.take m) := by
        intro m
        exact sumSizes_congr (fun q hq => hlook q (hsub m q hq))
      refine ⟨?_, ?_, ?_, ?_, ?_⟩
      · rw [hunfold]
        simp only [List.length_cons, List.take_succ_cons, List.map_cons]
        exact congrArg (List.cons p.1) ih1
      · rw [hunfold]
        simp only [List.length_cons, List.take_succ_cons]
        rw [sumSizes_cons, hsz]
        simp only [Option.getD_some]
        rw [ih2, hsum_take]
        push_cast
        ring
      · rw [hunfold]
        simp only [List.length_cons, List.drop_succ_cons]
        intro q hq
        rw [ih3 q hq, hlook q (List.drop_subset _ rest hq)]
      · rw [hunfold]
        rcases ih4 with h4 | h4
        · left; exact h4
        · right; simp [h4]
      · rw [hunfold]
        intro m hm
        match m with
        | 0 =>
          simp only [List.take_zero, sumSizes_nil, Nat.cast_zero, sub_zero]
          omega
        | Nat.succ m' =>
          simp only [List.length_cons, Nat.succ_lt_succ_iff] at hm
          have := ih5 m' hm
          rw [hsum_take] at this
          rw [List.take_succ_cons, sumSizes_cons, hsz]
          simp only [Option.getD_some]
          push_cast at this ⊢
          omega

/-! ### More dictionary lemmas -/

theorem dictLookup_dictRemove_self {α : Type} (m : List (String × α)) (k : String) :
    dictLookup (dictRemove m k) k = none := by
  induction m with
  | nil => rfl
  | cons p rest ih =>
    by_cases hpk : p.1 = k
    · simp [dictRemove, hpk, ih]
    · simp [dictRemove, dictLookup, hpk, ih]

theorem dictInsert_of_fresh {α : Type} (m : List (String × α)) (k : String) (v : α)
    (h : dictLookup m k = none) : dictInsert m k v = m ++ [(k, v)] := by
  induction m with
  | nil => rfl
  | cons p rest ih =>
    by_cases hpk : p.1 = k
    · simp [dictLookup, hpk] at h
    · simp only [dictLookup] at h
      rw [if_neg (by simpa using hpk)] at h
      simp [dictInsert, hpk, ih h]

/-! ### Assembled behaviour of `cleanup_if_needed` -/

theorem cleanup_if_needed_of_fits (s : CacheState) (k : Nat) (hc : Consistent s)
    (h : totalSize s + k ≤ s.max_size_bytes) : cleanup_if_needed s k = s := by
  unfold cleanup_if_needed
  rw [get_total_size_of_consistent s hc]
  have h' : ((totalSize s : Int)) + (k : Int) ≤ (s.max_size_bytes : Int) := by
    exact_mod_cast h
  simp [h']

theorem cleanup_if_needed_unfold_big (s : CacheState) (k : Nat) (hc : Consistent s)
    (hbig : ¬ (totalSize s + k ≤ s.max_size_bytes)) :
    cleanup_if_needed s k =
      { s with
        metadata := s.metadata.filter (fun p =>
          ¬ (cleanupLoop ((s.max_size_bytes : Int) - k) (get_lru_files s.metadata)
              s.disk (totalSize s)).1.contains p.1),
        disk := (cleanupLoop ((s.max_size_bytes : Int) - k) (get_lru_files s.metadata)
              s.disk (totalSize s)).2.1 } := by
  unfold cleanup_if_needed
  rw [get_total_size_of_consistent s hc]
  have h' : ¬ (((totalSize s : Int)) + (k : Int) ≤ (s.max_size_bytes : Int)) := by
    exact_mod_cast hbig
  simp [h']

theorem contains_iff_mem_strings (l : List String) (a : String) :
    l.contains a = true ↔ a ∈ l := by
  simp [List.contains_iff_exists_mem_beq, beq_iff_eq]

theorem cleanup_if_needed_spec (s : CacheState) (k : Nat)
    (hc : Consistent s)
    (hfn : (s.metadata.map (fun p => p.2.filename)).Nodup)
    (hid : (s.metadata.map Prod.fst).Nodup)
    (hbig : ¬ (totalSize s + k ≤ s.max_size_bytes)) :
    ∃ n ≤ (get_lru_files s.metadata).length,
      (cleanup_if_needed s k).metadata.Perm ((get_lru_files s.metadata).drop n) ∧
      (cleanup_if_needed s k).max_size_bytes = s.max_size_bytes ∧
      sumSizes s.disk ((get_lru_files s.metadata).take n) ≤ totalSize s ∧
      totalSize (cleanup_if_needed s k)
        = totalSize s - sumSizes s.disk ((get_lru_files s.metadata).take n) ∧
      (totalSize (cleanup_if_needed s k) + k ≤ s.max_size_bytes ∨
        n = (get_lru_files s.metadata).length) ∧
      (∀ m < n, ((s.max_size_bytes : Int) - k)
          < (totalSize s : Int) - (sumSizes s.disk ((get_lru_files s.metadata).take m) : Int)) := by
  have hunfold := cleanup_if_needed_unfold_big s k hc hbig
  set lru := get_lru_files s.metadata with hlru
  have hpl : lru.Perm s.metadata := List.perm_insertionSort lruLE s.metadata
  have hpres : ∀ p ∈ lru, (dictLookup s.disk p.2.filename).isSome = true :=
    fun p hp => hc p (hpl.subset hp)
  have hfnlru : (lru.map (fun p => p.2.filename)).Nodup :=
    ((hpl.map (fun p => p.2.filename)).nodup_iff).mpr hfn
  have hidlru : (lru.map Prod.fst).Nodup :=
    ((hpl.map Prod.fst).nodup_iff).mpr hid
  set target : Int := (s.max_size_bytes : Int) - k with htarget
  set r := cleanupLoop target lru s.disk (totalSize s) with hr
  obtain ⟨e1, e2, e3, e4, e5⟩ :=
    cleanupLoop_spec target lru s.disk (totalSize s) hpres hfnlru
  rw [← hr] at e1 e2 e3 e4 e5
  set n := r.1.length with hn
  -- the evicted count is within range
  have hnle : n ≤ lru.length := by
    have : n = (List.map Prod.fst (List.take n lru)).length := by
      rw [hn]
      exact congrArg List.length e1
    rw [List.length_map, List.length_take] at this
    omega
  -- the id sets of the two halves of the sort are disjoint
  have hsplitids : ((lru.take n).map Prod.fst ++ (lru.drop n).map Prod.fst).Nodup := by
    rw [← List.map_append, List.take_append_drop]
    exact hidlru
  have hdisj : ∀ p ∈ lru.drop n, p.1 ∉ (lru.take n).map Prod.fst := by
    intro p hp hmem
    exact (List.disjoint_of_nodup_append hsplitids) hmem
      (List.mem_map_of_mem Prod.fst hp)
  -- the surviving metadata is, up to permutation, the kept half of the sort
  have hkeep : (cleanup_if_needed s k).metadata.Perm (lru.drop n) := by
    rw [hunfold]
    refine (hpl.filter _).symm.trans ?_
    have heq : lru.filter (fun p => decide (¬ r.1.contains p.1 = true))
        = lru.drop n := by
      conv_lhs => rw [← List.take_append_drop n lru, List.filter_append]
      have h1 : (lru.take n).filter (fun p => decide (¬ r.1.contains p.1 = true)) = [] := by
        apply List.filter_eq_nil_iff.mpr
        intro p hp
        have hmemr : p.1 ∈ r.1 := by
          rw [e1]
          exact List.mem_map_of_mem Prod.fst hp
        simp [contains_iff_mem_strings, hmemr]
      have h2 : (lru.drop n).filter (fun p => decide (¬ r.1.contains p.1 = true))
          = lru.drop n := by
        apply List.filter_eq_self.mpr
        intro p hp
        have hnot : p.1 ∉ r.1 := by
          rw [e1]
          exact hdisj p hp
        simp [contains_iff_mem_strings, hnot]
      rw [h1, h2, List.nil_append]
    rw [heq]
  -- size bookkeeping
  have hsplitsum : sumSizes s.disk (lru.take n) + sumSizes s.disk (lru.drop n)
      = totalSize s := by
    rw [← sumSizes_append, List.take_append_drop]
    exact sumSizes_perm s.disk hpl
  have htot : totalSize (cleanup_if_needed s k)
      = totalSize s - sumSizes s.disk (lru.take n) := by
    have hdisk : (cleanup_if_needed s k).disk = r.2.1 := by rw [hunfold]
    have h1 : totalSize (cleanup_if_needed s k)
        = sumSizes r.2.1 (cleanup_if_needed s k).metadata := by
      rw [totalSize, hdisk]
    rw [h1, sumSizes_perm r.2.1 hkeep, sumSizes_congr e3]
    omega
  refine ⟨n, hnle, hkeep, by rw [hunfold], by omega, htot, ?_, ?_⟩
  · rcases e4 with h4 | h4
    · left
      rw [e2] at h4
      have hle : sumSizes s.disk (lru.take n) ≤ totalSize s := by omega
      rw [htot]
      omega
    · right
      exact h4
  · intro m hm
    have := e5 m hm
    omega

/-! ### `mark_accessed` lookup lemmas -/

theorem lookup_map_touch {m : List (String × CacheEntry)} {vid : String} {e : CacheEntry}
    (now : Nat) (h : dictLookup m vid = some e) :
    dictLookup (m.map (fun p =>
        if p.1 = vid then (p.1, { p.2 with last_accessed := now }) else p)) vid
      = some { e with last_accessed := now } := by
  induction m with
  | nil => simp [dictLookup] at h
  | cons p rest ih =>
    simp only [List.map_cons]
    by_cases hpk : p.1 = vid
    · rw [if_pos hpk]
      simp only [dictLookup, if_pos hpk] at h
      simp only [dictLookup, if_pos hpk]
      rw [Option.some.inj h]
    · rw [if_neg hpk]
      simp only [dictLookup, if_neg hpk] at h
      simp only [dictLookup, if_neg hpk]
      exact ih h

theorem lookup_map_touch_ne (m : List (String × CacheEntry)) (vid vid' : String)
    (now : Nat) (h : vid' ≠ vid) :
    dictLookup (m.map (fun p =>
        if p.1 = vid then (p.1, { p.2 with last_accessed := now }) else p)) vid'
      = dictLookup m vid' := by
  induction m with
  | nil => rfl
  | cons p rest ih =>
    simp only [List.map_cons]
    by_cases hpk : p.1 = vid
    · have hne : ¬ p.1 = vid' := by rw [hpk]; exact fun hh => h hh.symm
      rw [if_pos hpk]
      simp only [dictLookup, if_neg hne]
      exact ih
    · rw [if_neg hpk]
      by_cases hpk' : p.1 = vid'
      · simp only [dictLookup, if_pos hpk']
      · simp only [dictLookup, if_neg hpk']
        exact ih

/-! ### Claim C1 — media-cache quota invariant -/

/-- C1 (counterexample): the claimed invariant "total tracked on-disk size ≤
quota after every admit" fails: admitting a 20-byte file into a cache with a
10-byte quota leaves the total above the quota, because `add_file` only
records metadata and never evicts. -/
theorem add_file_exceeds_quota_cex :
    totalSize (add_file cacheTiny "v" "f.webm" 20 0)
      = 20 ∧
    (add_file cacheTiny "v" "f.webm" 20 0).max_size_bytes = 10 ∧
    ¬ totalSize (add_file cacheTiny "v" "f.webm" 20 0)
        ≤ (add_file cacheTiny "v" "f.webm" 20 0).max_size_bytes := by
  refine ⟨by decide, by decide, by decide⟩

/-- C1 (amended): after `update_max_size` the quota invariant holds — for a
shrink unconditionally, otherwise provided it held before; after `add_file`
the total is exactly the previous total plus the admitted file's on-disk
size (no eviction happens), so the invariant survives an admit exactly when
that sum fits the quota. -/
theorem cache_quota_amended (s : CacheState) (g : ℚ)
    (vid fn : String) (sz now : Nat)
    (hc : Consistent s)
    (hfn : (s.metadata.map (fun p => p.2.filename)).Nodup)
    (hid : (s.metadata.map Prod.fst).Nodup)
    (hinv : totalSize s ≤ s.max_size_bytes)
    (hfresh : dictLookup s.metadata vid = none) :
    totalSize (update_max_size s g) ≤ (update_max_size s g).max_size_bytes ∧
    totalSize (add_file s vid fn sz now)
      = totalSize s + (dictLookup s.disk fn).getD 0 ∧
    (totalSize (add_file s vid fn sz now) ≤ (add_file s vid fn sz now).max_size_bytes ↔
      totalSize s + (dictLookup s.disk fn).getD 0 ≤ s.max_size_bytes) := by
  have hadd : totalSize (add_file s vid fn sz now)
      = totalSize s + (dictLookup s.disk fn).getD 0 := by
    unfold add_file totalSize
    simp only
    rw [dictInsert_of_fresh s.metadata vid _ hfresh, sumSizes_append, sumSizes_cons,
      sumSizes_nil]
    simp
  refine ⟨?_, hadd, by rw [hadd]; exact Iff.rfl⟩
  unfold update_max_size
  set newmax : Nat := (⌊g * (1024 * 1024 * 1024)⌋).toNat with hnewmax
  by_cases hshrink : g < (s.max_size_bytes : ℚ) / (1024 * 1024 * 1024)
  · simp only [if_pos hshrink]
    set s1 : CacheState := { s with max_size_bytes := newmax } with hs1
    have hc1 : Consistent s1 := hc
    have hfn1 : (s1.metadata.map (fun p => p.2.filename)).Nodup := hfn
    have hid1 : (s1.metadata.map Prod.fst).Nodup := hid
    by_cases hfits : totalSize s1 + 0 ≤ s1.max_size_bytes
    · rw [cleanup_if_needed_of_fits s1 0 hc1 hfits]
      simpa using hfits
    · obtain ⟨n, _, hkeep, hmax, _, _, hq, _⟩ :=
        cleanup_if_needed_spec s1 0 hc1 hfn1 hid1 hfits
      rcases hq with hle | hall
      · rw [hmax]
        simpa using hle
      · have hnil : (cleanup_if_needed s1 0).metadata = [] := by
          have := hkeep
          rw [hall, List.drop_length] at this
          exact this.eq_nil
        have : totalSize (cleanup_if_needed s1 0) = 0 := by
          rw [totalSize, hnil, sumSizes_nil]
        rw [this, hmax]
        exact Nat.zero_le _
  · simp only [if_neg hshrink]
    have hge : (s.max_size_bytes : ℚ) / (1024 * 1024 * 1024) ≤ g := le_of_not_lt hshrink
    have hmul : (s.max_size_bytes : ℚ) ≤ g * (1024 * 1024 * 1024) := by
      rw [div_le_iff₀ (by norm_num : (0:ℚ) < 1024 * 1024 * 1024)] at hge
      exact hge
    have hfloor : (s.max_size_bytes : Int) ≤ ⌊g * (1024 * 1024 * 1024)⌋ :=
      Int.le_floor.mpr (by exact_mod_cast hmul)
    have hmaxle : s.max_size_bytes ≤ newmax := by
      rw [hnewmax]
      omega
    calc totalSize { s with max_size_bytes := newmax }
        = totalSize s := rfl
      _ ≤ s.max_size_bytes := hinv
      _ ≤ newmax := hmaxle

/-- C1 (amended, witness): a concrete shrink from quota 30 to quota
`20/2^30` GB on a consistent two-file cache, and a concrete admit. -/
theorem cache_quota_amended_witness :
    (Consistent cacheOk ∧
      (cacheOk.metadata.map (fun p => p.2.filename)).Nodup ∧
      (cacheOk.metadata.map Prod.fst).Nodup ∧
      totalSize cacheOk ≤ cacheOk.max_size_bytes ∧
      dictLookup cacheOk.metadata "w" = none) ∧
    (totalSize (update_max_size cacheOk (20 / 1073741824))
        ≤ (update_max_size cacheOk (20 / 1073741824)).max_size_bytes ∧
      totalSize (add_file cacheOk "w" "fw" 5 9)
        = totalSize cacheOk + (dictLookup cacheOk.disk "fw").getD 0 ∧
      (totalSize (add_file cacheOk "w" "fw" 5 9)
          ≤ (add_file cacheOk "w" "fw" 5 9).max_size_bytes ↔
        totalSize cacheOk + (dictLookup cacheOk.disk "fw").getD 0
          ≤ cacheOk.max_size_bytes)) := by
  refine ⟨⟨by decide, by decide, by decide, by decide, by decide⟩, ?_⟩
  exact cache_quota_amended cacheOk (20 / 1073741824) "w" "fw" 5 9
    (by decide) (by decide) (by decide) (by decide) (by decide)

/-! ### Claim C5 — strict-LRU eviction -/

/-- C5: `cleanup_if_needed` is LRU eviction.  When the estimate already fits,
nothing changes.  Otherwise some front segment (length `n`) of the
`last_accessed`-ascending sort is evicted and exactly the rest is retained:
no evicted entry is newer than any retained entry, eviction proceeds in
ascending `last_accessed` order (strictly so when the timestamps are
pairwise distinct), every single eviction happened while the size was still
above `quota - estimate`, and the loop stops at or below it (or runs out of
entries).  Stated for states whose tracked files all exist on disk with
pairwise-distinct filenames and ids, which every admit/evict sequence
maintains. -/
theorem cache_lru_eviction_claim (s : CacheState) (k : Nat)
    (hc : Consistent s)
    (hfn : (s.metadata.map (fun p => p.2.filename)).Nodup)
    (hid : (s.metadata.map Prod.fst).Nodup) :
    (totalSize s + k ≤ s.max_size_bytes → cleanup_if_needed s k = s) ∧
    (¬ (totalSize s + k ≤ s.max_size_bytes) →
      ∃ n ≤ (get_lru_files s.metadata).length,
        (cleanup_if_needed s k).metadata.Perm ((get_lru_files s.metadata).drop n) ∧
        (∀ e ∈ (get_lru_files s.metadata).take n,
          ∀ e' ∈ (get_lru_files s.metadata).drop n,
            ¬ (e'.2.last_accessed < e.2.last_accessed)) ∧
        List.Pairwise lruLE ((get_lru_files s.metadata).take n) ∧
        ((s.metadata.map (fun p => p.2.last_accessed)).Nodup →
          List.Pairwise (fun a b => a.2.last_accessed < b.2.last_accessed)
            ((get_lru_files s.metadata).take n)) ∧
        (∀ m < n, ((s.max_size_bytes : Int) - k)
            < (totalSize s : Int)
              - (sumSizes s.disk ((get_lru_files s.metadata).take m) : Int)) ∧
        (totalSize (cleanup_if_needed s k) + k ≤ s.max_size_bytes ∨
          n = (get_lru_files s.metadata).length)) := by
  constructor
  · exact fun h => cleanup_if_needed_of_fits s k hc h
  · intro hbig
    obtain ⟨n, hnle, hkeep, _, _, _, hq, hmin⟩ :=
      cleanup_if_needed_spec s k hc hfn hid hbig
    have hsorted : List.Pairwise lruLE (get_lru_files s.metadata) :=
      List.sorted_insertionSort lruLE s.metadata
    have hsplit := List.pairwise_append.mp
      (by rw [List.take_append_drop n (get_lru_files s.metadata)]; exact hsorted)
    refine ⟨n, hnle, hkeep, ?_, hsplit.1, ?_, hmin, hq⟩
    · intro e he e' he'
      exact Nat.not_lt.mpr (hsplit.2.2 e he e' he')
    · intro hdla
      have hpl : (get_lru_files s.metadata).Perm s.metadata :=
        List.perm_insertionSort lruLE s.metadata
      have hdla_lru : ((get_lru_files s.metadata).map
          (fun p => p.2.last_accessed)).Nodup :=
        ((hpl.map (fun p => p.2.last_accessed)).nodup_iff).mpr hdla
      have hdla_take : (((get_lru_files s.metadata).take n).map
          (fun p => p.2.last_accessed)).Nodup :=
        ((List.take_sublist n _).map _).nodup hdla_lru
      have hne : List.Pairwise
          (fun a b : String × CacheEntry => a.2.last_accessed ≠ b.2.last_accessed)
          ((get_lru_files s.metadata).take n) :=
        (List.pairwise_map.mp hdla_take)
      exact (hsplit.1.and hne).imp (fun hab => Nat.lt_of_le_of_ne hab.1 hab.2)

/-- C5 (witness): quota 25 with three 10-byte files accessed at times
1 (`b`), 2 (`a`), 3 (`c`); `cleanup_if_needed 0` evicts `b` only. -/
theorem cache_lru_eviction_claim_witness :
    (Consistent cacheLruEx ∧
      (cacheLruEx.metadata.map (fun p => p.2.filename)).Nodup ∧
      (cacheLruEx.metadata.map Prod.fst).Nodup ∧
      ¬ (totalSize cacheLruEx + 0 ≤ cacheLruEx.max_size_bytes)) ∧
    (∃ n ≤ (get_lru_files cacheLruEx.metadata).length,
      (cleanup_if_needed cacheLruEx 0).metadata.Perm
        ((get_lru_files cacheLruEx.metadata).drop n) ∧
      (∀ e ∈ (get_lru_files cacheLruEx.metadata).take n,
        ∀ e' ∈ (get_lru_files cacheLruEx.metadata).drop n,
          ¬ (e'.2.last_accessed < e.2.last_accessed)) ∧
      List.Pairwise lruLE ((get_lru_files cacheLruEx.metadata).take n) ∧
      ((cacheLruEx.metadata.map (fun p => p.2.last_accessed)).Nodup →
        List.Pairwise (fun a b => a.2.last_accessed < b.2.last_accessed)
          ((get_lru_files cacheLruEx.metadata).take n)) ∧
      (∀ m < n, ((cacheLruEx.max_size_bytes : Int) - 0)
          < (totalSize cacheLruEx : Int)
            - (sumSizes cacheLruEx.disk ((get_lru_files cacheLruEx.metadata).take m) : Int)) ∧
      (totalSize (cleanup_if_needed cacheLruEx 0) + 0 ≤ cacheLruEx.max_size_bytes ∨
        n = (get_lru_files cacheLruEx.metadata).length)) := by
  refine ⟨⟨by decide, by decide, by decide, by decide⟩, ?_⟩
  exact (cache_lru_eviction_claim cacheLruEx 0 (by decide) (by decide) (by decide)).2
    (by decide)

/-! ### Claim C10 — self-healing cache lookup -/

/-- C10: `get_cached_file` self-heals.  If the id is tracked but its file is
missing, the lookup returns nothing and drops exactly that metadata entry,
and an immediately repeated lookup returns nothing with no further state
change.  If the file is present, the lookup returns its name and the only
metadata change is that id's `last_accessed` timestamp; the disk, the quota
and every other id's entry are untouched. -/
theorem cache_lookup_selfheal_claim (s : CacheState) (vid : String) (now : Nat) :
    (∀ e, dictLookup s.metadata vid = some e →
      dictLookup s.disk e.filename = none →
        get_cached_file s vid now
          = (none, { s with metadata := dictRemove s.metadata vid }) ∧
        get_cached_file { s with metadata := dictRemove s.metadata vid } vid now
          = (none, { s with metadata := dictRemove s.metadata vid })) ∧
    (∀ e, dictLookup s.metadata vid = some e →
      (dictLookup s.disk e.filename).isSome = true →
        (get_cached_file s vid now).1 = some e.filename ∧
        (get_cached_file s vid now).2.disk = s.disk ∧
        (get_cached_file s vid now).2.max_size_bytes = s.max_size_bytes ∧
        dictLookup (get_cached_file s vid now).2.metadata vid
          = some { e with last_accessed := now } ∧
        (∀ vid', vid' ≠ vid →
          dictLookup (get_cached_file s vid now).2.metadata vid'
            = dictLookup s.metadata vid')) := by
  constructor
  · intro e he hmiss
    have h1 : get_cached_file s vid now
        = (none, { s with metadata := dictRemove s.metadata vid }) := by
      unfold get_cached_file
      rw [he]
      simp [hmiss]
    refine ⟨h1, ?_⟩
    unfold get_cached_file
    simp [dictLookup_dictRemove_self]
  · intro e he hhit
    have hsome : (dictLookup s.metadata vid).isSome = true := by rw [he]; rfl
    have hma : mark_accessed s vid now
        = { s with metadata := s.metadata.map (fun p =>
            if p.1 = vid then (p.1, { p.2 with last_accessed := now }) else p) } := by
      unfold mark_accessed
      rw [if_pos hsome]
    have h1 : get_cached_file s vid now
        = (some e.filename, mark_accessed s vid now) := by
      unfold get_cached_file
      rw [he]
      simp [hhit]
    rw [h1, hma]
    refine ⟨rfl, rfl, rfl, ?_, ?_⟩
    · exact lookup_map_touch now he
    · intro vid' hne
      exact lookup_map_touch_ne s.metadata vid vid' now hne

/-- C10 (witness): on `cacheStale`, id `v` is tracked but `fv` is missing —
the lookup drops it and a second lookup is a no-op; id `u` is tracked with
`fu` on disk — the lookup returns `fu` and only bumps `u`'s timestamp. -/
theorem cache_lookup_selfheal_claim_witness :
    (dictLookup cacheStale.metadata "v"
        = some { filename := "fv", size_bytes := 9, last_accessed := 2, download_date := 0 } ∧
      dictLookup cacheStale.disk "fv" = none ∧
      get_cached_file cacheStale "v" 5
        = (none, { cacheStale with metadata := dictRemove cacheStale.metadata "v" }) ∧
      get_cached_file { cacheStale with metadata := dictRemove cacheStale.metadata "v" } "v" 5
        = (none, { cacheStale with metadata := dictRemove cacheStale.metadata "v" })) ∧
    ((get_cached_file cacheStale "u" 5).1 = some "fu" ∧
      dictLookup (get_cached_file cacheStale "u" 5).2.metadata "u"
        = some { filename := "fu", size_bytes := 7, last_accessed := 5, download_date := 0 }) := by
  have h1 := (cache_lookup_selfheal_claim cacheStale "v" 5).1
    { filename := "fv", size_bytes := 9, last_accessed := 2, download_date := 0 }
    (by decide) (by decide)
  have h2 := (cache_lookup_selfheal_claim cacheStale "u" 5).2
    { filename := "fu", size_bytes := 7, last_accessed := 1, download_date := 0 }
    (by decide) (by decide)
  exact ⟨⟨by decide, by decide, h1.1, h1.2⟩, ⟨h2.1, h2.2.2.2.1⟩⟩

/-! ### Claim C2 — playlist position invariant -/

theorem foldr_max_perm {l l' : List Nat} (h : l.Perm l') :
    l.foldr max 0 = l'.foldr max 0 := by
  induction h with
  | nil => rfl
  | cons x _ ih => simp [List.foldr_cons, ih]
  | swap x y l => simp [List.foldr_cons, max_left_comm]
  | trans _ _ ih1 ih2 => exact ih1.trans ih2

theorem foldr_max_range' (n : Nat) : ∀ s, 1 ≤ s →
    (List.range' s n).foldr max 0 = if n = 0 then 0 else s + n - 1 := by
  induction n with
  | zero => intro s _; rfl
  | succ m ih =>
    intro s hs
    rw [List.range'_succ, List.foldr_cons, ih (s + 1) (by omega)]
    by_cases hm : m = 0
    · simp [hm]
    · rw [if_neg hm, if_neg (Nat.succ_ne_zero m)]
      omega

/-- `add_playlist_item_verified` keeps positions dense: the fresh item gets
`MAX(position) + 1 = |items| + 1`. -/
theorem add_playlist_item_dense (s : PlaylistState) (h : PositionsDense s) :
    PositionsDense (add_playlist_item_verified s) := by
  unfold PositionsDense playlistPositions at h ⊢
  unfold add_playlist_item_verified next_position
  simp only [List.map_append, List.map_cons, List.map_nil, List.length_append,
    List.length_cons, List.length_nil]
  have hmax : (s.items.map (·.position)).foldr max 0 = s.items.length := by
    rw [foldr_max_perm h, foldr_max_range' s.items.length 1 (by omega)]
    by_cases hn : s.items.length = 0
    · simp [hn]
    · rw [if_neg hn]; omega
  rw [hmax]
  have : s.items.length + 0 + 1 = s.items.length + 1 := by omega
  rw [this, List.range'_1_concat]
  exact h.append (by rw [Nat.add_comm 1 s.items.length])

theorem reorder_foldl_eq (ids : List Nat) (hnd : ids.Nodup) :
    ∀ (st : Nat) (items : List PlaylistItem),
    (List.enumFrom st ids).foldl
        (fun acc pr => acc.map (fun it =>
          if it.id = pr.2 then { it with position := pr.1 } else it)) items
      = items.map (fun it =>
          if it.id ∈ ids then { it with position := st + ids.indexOf it.id } else it) := by
  induction ids with
  | nil =>
    intro st items
    simp
  | cons a rest ih =>
    intro st items
    have hanotin : a ∉ rest := (List.nodup_cons.mp hnd).1
    have hndrest : rest.Nodup := (List.nodup_cons.mp hnd).2
    rw [show List.enumFrom st (a :: rest) = (st, a) :: List.enumFrom (st + 1) rest from rfl,
      List.foldl_cons, ih hndrest (st + 1), List.map_map]
    apply List.map_congr_left
    intro it _
    by_cases hia : it.id = a
    · simp [hia, hanotin, List.indexOf_cons_self]
    · by_cases hir : it.id ∈ rest
      · have hsucc : List.indexOf it.id (a :: rest) = (List.indexOf it.id rest).succ :=
          List.indexOf_cons_ne rest (Ne.symm hia)
        simp only [Function.comp_apply, if_neg hia, if_pos hir,
          if_pos (List.mem_cons_of_mem a hir), hsucc]
        have : st + 1 + List.indexOf it.id rest = st + (List.indexOf it.id rest).succ := by
          omega
        rw [this]
      · have h1 : it.id ∉ a :: rest := by
          intro hmem
          rcases List.mem_cons.mp hmem with h | h
          · exact hia h
          · exact hir h
        simp only [Function.comp_apply, if_neg hia, if_neg hir, if_neg h1]

theorem map_indexOf_self (ids : List Nat) (hnd : ids.Nodup) :
    ids.map (fun x => ids.indexOf x) = List.range ids.length := by
  induction ids with
  | nil => rfl
  | cons a rest ih =>
    have hanotin : a ∉ rest := (List.nodup_cons.mp hnd).1
    have hndrest : rest.Nodup := (List.nodup_cons.mp hnd).2
    simp only [List.map_cons, List.indexOf_cons_self, List.length_cons,
      List.range_succ_eq_map]
    congr 1
    rw [List.map_congr_left (f := fun x => List.indexOf x (a :: rest))
      (g := fun x => (List.indexOf x rest).succ)
      (fun x hx => List.indexOf_cons_ne rest (fun hxa => hanotin (hxa ▸ hx)))]
    rw [← ih hndrest, List.map_map]
    rfl

/-- `reorder_playlist_items` with a duplicate-free list of exactly the
playlist's item ids renumbers positions to `1..n` in list order. -/
theorem reorder_playlist_dense (s : PlaylistState) (ids : List Nat)
    (hnd : ids.Nodup) (hperm : (s.items.map (·.id)).Perm ids) :
    PositionsDense (reorder_playlist_items s ids) := by
  unfold PositionsDense playlistPositions reorder_playlist_items
  simp only
  rw [reorder_foldl_eq ids hnd 1 s.items, List.map_map, List.length_map]
  have hmem : ∀ it ∈ s.items, it.id ∈ ids := by
    intro it hit
    exact hperm.subset (List.mem_map_of_mem (·.id) hit)
  have hfun : s.items.map ((fun it : PlaylistItem => it.position) ∘ (fun it =>
      if it.id ∈ ids then { it with position := 1 + ids.indexOf it.id } else it))
      = s.items.map (fun it => 1 + ids.indexOf it.id) := by
    apply List.map_congr_left
    intro it hit
    simp [hmem it hit]
  rw [hfun]
  have hcomp : s.items.map (fun it => 1 + ids.indexOf it.id)
      = (s.items.map (·.id)).map (fun i => 1 + ids.indexOf i) := by
    rw [List.map_map]; rfl
  rw [hcomp]
  have hlen : s.items.length = ids.length := by
    have := hperm.length_eq
    simpa using this
  rw [hlen]
  refine (hperm.map (fun i => 1 + ids.indexOf i)).trans ?_
  have : ids.map (fun i => 1 + ids.indexOf i)
      = (ids.map (fun x => ids.indexOf x)).map (fun k => 1 + k) := by
    rw [List.map_map]; rfl
  rw [this, map_indexOf_self ids hnd, List.range'_eq_map_range]

/-- C2 (counterexample): three appended items have positions `[1, 2, 3]`;
`delete_playlist_item` on the middle one leaves positions `[1, 3]`, which is
not a permutation of `{1, 2}` — the store never renumbers after a delete. -/
theorem playlist_delete_gap_cex :
    playlistPositions plEx3 = [1, 2, 3] ∧
    plExDel.items.length = 2 ∧
    playlistPositions plExDel = [1, 3] ∧
    ¬ PositionsDense plExDel := by
  exact ⟨by decide, by decide, by decide, by decide⟩

/-- C2 (amended): item addition preserves the dense-position invariant, and
`reorder_playlist_items` applied to a duplicate-free list of exactly the
playlist's item ids re-establishes it; `delete_playlist_item` does not
renumber, so the invariant fails after deleting a non-final item. -/
theorem playlist_positions_amended (s : PlaylistState) (ids : List Nat)
    (hdense : PositionsDense s) (hnd : ids.Nodup)
    (hperm : (s.items.map (·.id)).Perm ids) :
    PositionsDense (add_playlist_item_verified s) ∧
    PositionsDense (reorder_playlist_items s ids) :=
  ⟨add_playlist_item_dense s hdense, reorder_playlist_dense s ids hnd hperm⟩

/-- C2 (amended, witness): the three-item playlist, reordered by `[2, 0, 1]`. -/
theorem playlist_positions_amended_witness :
    (PositionsDense plEx3 ∧ ([2, 0, 1] : List Nat).Nodup ∧
      (plEx3.items.map (·.id)).Perm [2, 0, 1]) ∧
    (PositionsDense (add_playlist_item_verified plEx3) ∧
      PositionsDense (reorder_playlist_items plEx3 [2, 0, 1])) := by
  refine ⟨⟨by decide, by decide, by decide⟩, ?_⟩
  exact playlist_positions_amended plEx3 [2, 0, 1] (by decide) (by decide) (by decide)

/-! ### Claim C3 — YouTube verifier scoring and acceptance -/

/-- C3 (counterexample): at `full = 0`, `album = 90`, `band = 70`, no boost,
the claim's `band ≥ 70 ∧ album ≥ 70` formula yields `min(100, (90+70)/2) =
80` — below a threshold of 85 — but the source takes the `max(full, album)`
branch (its test is strict `> 70`), scores the candidate 90, accepts it and
selects it. -/
theorem youtube_score_boundary_cex :
    spec_candidate_score ytBoundaryResult = 80 ∧
    candidate_score ytBoundaryResult = 90 ∧
    best_match [ytBoundaryResult] 85 = some ("x".data, 90) ∧
    ¬ spec_candidate_score ytBoundaryResult ≥ 85 := by
  exact ⟨by decide, by decide, by decide, by decide⟩

/-- C3 (amended): the stored candidate score is
`min(100, (max(full,(album+band)/2) if band > 70 ∧ album > 70 else
max(full, album)) + boost)` — strict inequalities at 70; a candidate is
accepted iff its (uncapped) score reaches `min_similarity`, which for any
threshold ≤ 100 coincides with the capped score reaching it (so a candidate
scoring exactly the threshold is accepted); and the chosen match is an
accepted candidate of maximal stored score. -/
theorem youtube_scoring_amended (results : List YouTubeSearchResult)
    (min_similarity : Nat) (hms : min_similarity ≤ 100) :
    (∀ r : YouTubeSearchResult, min (candidate_score r) 100
        = min 100 ((if r.band_score > 70 ∧ r.album_score > 70
            then max r.full_score ((r.album_score + r.band_score) / 2)
            else max r.full_score r.album_score) + full_album_boost r)) ∧
    (∀ r : YouTubeSearchResult,
        (min_similarity ≤ candidate_score r ↔
          min_similarity ≤ min (candidate_score r) 100)) ∧
    (∀ r ∈ results, min_similarity ≤ candidate_score r →
        (r.title, min (candidate_score r) 100) ∈ build_matches results min_similarity) ∧
    (∀ m, best_match results min_similarity = some m →
        m ∈ build_matches results min_similarity ∧
        ∀ p ∈ build_matches results min_similarity, p.2 ≤ m.2) ∧
    (best_match results min_similarity = none ↔
        build_matches results min_similarity = []) := by
  have hperm : (List.insertionSort matchGE (build_matches results min_similarity)).Perm
      (build_matches results min_similarity) :=
    List.perm_insertionSort matchGE (build_matches results min_similarity)
  have hsort : List.Pairwise matchGE
      (List.insertionSort matchGE (build_matches results min_similarity)) :=
    List.sorted_insertionSort matchGE (build_matches results min_similarity)
  refine ⟨?_, ?_, ?_, ?_, ?_⟩
  · intro r
    unfold candidate_score
    by_cases hb : r.band_score > 70 ∧ r.album_score > 70
    · rw [if_pos hb, if_pos hb, Nat.min_comm]
    · rw [if_neg hb, if_neg hb, Nat.min_comm]
  · intro r
    omega
  · intro r hr hacc
    unfold build_matches
    rw [List.mem_filterMap]
    exact ⟨r, hr, by rw [if_pos hacc]⟩
  · intro m hm
    unfold best_match at hm
    rcases hsrt : List.insertionSort matchGE (build_matches results min_similarity) with
      _ | ⟨x, tl⟩
    · rw [hsrt] at hm; simp at hm
    · rw [hsrt] at hm hperm hsort
      have hxm : x = m := by simpa using hm
      subst hxm
      refine ⟨hperm.subset (List.mem_cons_self x tl), ?_⟩
      intro p hp
      have hp' : p ∈ x :: tl := hperm.mem_iff.mpr hp
      rcases List.mem_cons.mp hp' with h | h
      · rw [h]
      · exact (List.pairwise_cons.mp hsort).1 p h
  · unfold best_match
    rw [List.head?_eq_none_iff]
    constructor
    · intro h
      have := hperm
      rw [h] at this
      exact this.symm.eq_nil
    · intro h
      rw [h]
      rfl

/-- C3 (amended, witness): two candidates at threshold 90 — one scoring
exactly 90 (accepted at the boundary), one scoring 80 (rejected); the best
match is the boundary candidate. -/
theorem youtube_scoring_amended_witness :
    (90 : Nat) ≤ 100 ∧
    (∀ m, best_match
        [{ title := "t1".data, is_playlist := false,
           full_score := 90, album_score := 10, band_score := 10 },
         { title := "t2".data, is_playlist := false,
           full_score := 80, album_score := 10, band_score := 10 }] 90 = some m →
      m ∈ build_matches
        [{ title := "t1".data, is_playlist := false,
           full_score := 90, album_score := 10, band_score := 10 },
         { title := "t2".data, is_playlist := false,
           full_score := 80, album_score := 10, band_score := 10 }] 90 ∧
      ∀ p ∈ build_matches
        [{ title := "t1".data, is_playlist := false,
           full_score := 90, album_score := 10, band_score := 10 },
         { title := "t2".data, is_playlist := false,
           full_score := 80, album_score := 10, band_score := 10 }] 90, p.2 ≤ m.2) := by
  refine ⟨by decide, ?_⟩
  exact (youtube_scoring_amended
    [{ title := "t1".data, is_playlist := false,
       full_score := 90, album_score := 10, band_score := 10 },
     { title := "t2".data, is_playlist := false,
       full_score := 80, album_score := 10, band_score := 10 }] 90 (by decide)).2.2.2.1

/-! ### Claim C4 — genre-parse scenario S2 -/

/-- C4 (counterexample): on
`"Doom/Death Metal (early); Progressive Death/Black Metal (mid)"` the parser
does not return the claimed mains: `_capitalize_genre` lower-cases the tail
of each `/`-joined word (`Doom/Death` → `Doom/death`), so the compound
splits into `Doom` and `death Metal` (never `Doom Metal`), and the temporal
map — keyed on the original casing `Death Metal` / `Black Metal` — matches
no part, leaving every period `None`. -/
theorem genre_parse_s2_cex :
    (parse_genre_string genreInputS2).map (fun g => g.main) =
      ["Doom".data, "death Metal".data, "Progressive Death".data,
        "black Metal".data] ∧
    "Doom Metal".data ∉ (parse_genre_string genreInputS2).map (fun g => g.main) ∧
    (parse_genre_string genreInputS2).map (fun g => g.period) =
      [none, none, none, none] := by
  exact ⟨by decide, by decide, by decide⟩

/-- C4 (amended): the parse of the S2 input yields exactly four entries with
mains `Doom`, `death Metal`, `Progressive Death`, `black Metal`, all periods
`None` (the temporal map holds `Death Metal ↦ early`, `Black Metal ↦ mid`,
which match no produced part), deduplicated (all mains distinct), with
confidences 0.8, 1.0, 0.9, 1.0 — each ≥ 0.5. -/
theorem genre_parse_s2_amended :
    parse_genre_string genreInputS2 =
      [{ main := "Doom".data, modifiers := [], related := [], period := none,
         confidence := tenths 8 },
       { main := "death Metal".data, modifiers := [], related := [], period := none,
         confidence := tenths 10 },
       { main := "Progressive Death".data, modifiers := ["Progressive".data],
         related := [], period := none, confidence := tenths 9 },
       { main := "black Metal".data, modifiers := [], related := [], period := none,
         confidence := tenths 10 }] ∧
    (extract_temporal_info genreInputS2).2 =
      [("Death Metal".data, "early".data), ("Black Metal".data, "mid".data)] ∧
    (∀ g ∈ parse_genre_string genreInputS2, tenths 5 ≤ g.confidence) := by
  have hlist : parse_genre_string genreInputS2 =
      [{ main := "Doom".data, modifiers := [], related := [], period := none,
         confidence := tenths 8 },
       { main := "death Metal".data, modifiers := [], related := [], period := none,
         confidence := tenths 10 },
       { main := "Progressive Death".data, modifiers := ["Progressive".data],
         related := [], period := none, confidence := tenths 9 },
       { main := "black Metal".data, modifiers := [], related := [], period := none,
         confidence := tenths 10 }] := rfl
  refine ⟨hlist, by decide, ?_⟩
  intro g hg
  rw [hlist] at hg
  simp only [List.mem_cons, List.not_mem_nil, or_false] at hg
  rcases hg with h | h | h | h <;> (rw [h]; unfold tenths; norm_num)

/-! ### Claim C6 — download retry policy -/

/-- C6 (counterexample): a task whose first attempt (attempts = 1 of 3)
times out is re-queued immediately — `backoff_seconds = none`, not the
claimed `min(2^1, 30) = 2` — and it re-enters the queue carrying status
FAILED, not QUEUED (the timeout branch has no backoff sleep, and the status
set before the re-queue is FAILED). -/
theorem download_retry_timeout_cex :
    (execute_download_finish
        { tid := 0, video_id := "v", status := DownloadStatus.downloading,
          attempts := 1, max_attempts := 3 } DownloadOutcome.timeout).requeued = true ∧
    (execute_download_finish
        { tid := 0, video_id := "v", status := DownloadStatus.downloading,
          attempts := 1, max_attempts := 3 } DownloadOutcome.timeout).backoff_seconds
      = none ∧
    (execute_download_finish
        { tid := 0, video_id := "v", status := DownloadStatus.downloading,
          attempts := 1, max_attempts := 3 } DownloadOutcome.timeout).task.status
      = DownloadStatus.failed := by
  exact ⟨by decide, by decide, by decide⟩

/-- C6 (amended): with attempts remaining, a non-timeout failure sleeps
`min(2^attempts, 30)` seconds and re-queues, while a timeout re-queues with
no backoff; in both cases the re-queued task carries status FAILED until a
worker picks it up again.  With attempts exhausted the task is recorded
FAILED and the failure counter is incremented, with no re-queue.  With
`max_attempts = 1` any failing first attempt is recorded FAILED without
re-queue. -/
theorem download_retry_policy_amended (t : DownloadTask) :
    (t.attempts < t.max_attempts →
      (execute_download_finish t DownloadOutcome.failure).requeued = true ∧
      (execute_download_finish t DownloadOutcome.failure).backoff_seconds
        = some (min (2 ^ t.attempts) 30) ∧
      (execute_download_finish t DownloadOutcome.failure).task.status
        = DownloadStatus.failed ∧
      (execute_download_finish t DownloadOutcome.timeout).requeued = true ∧
      (execute_download_finish t DownloadOutcome.timeout).backoff_seconds = none ∧
      (execute_download_finish t DownloadOutcome.failure).failed_delta = 0 ∧
      (execute_download_finish t DownloadOutcome.timeout).failed_delta = 0) ∧
    (¬ t.attempts < t.max_attempts →
      ∀ o, (o = DownloadOutcome.failure ∨ o = DownloadOutcome.timeout) →
        (execute_download_finish t o).requeued = false ∧
        (execute_download_finish t o).failed_delta = 1 ∧
        (execute_download_finish t o).total_delta = 1 ∧
        (execute_download_finish t o).task.status = DownloadStatus.failed) ∧
    (t.max_attempts = 1 →
      ∀ o, (o = DownloadOutcome.failure ∨ o = DownloadOutcome.timeout) →
        (execute_download_finish (execute_download_begin t) o).requeued = false ∧
        (execute_download_finish (execute_download_begin t) o).task.status
          = DownloadStatus.failed) := by
  refine ⟨?_, ?_, ?_⟩
  · intro h
    simp [execute_download_finish, h]
  · intro h o ho
    rcases ho with ho | ho <;> subst ho <;> simp [execute_download_finish, h]
  · intro h1 o ho
    have hne : ¬ (execute_download_begin t).attempts
        < (execute_download_begin t).max_attempts := by
      simp [execute_download_begin, h1]
    rcases ho with ho | ho <;> subst ho <;> simp [execute_download_finish, hne]

/-- C6 (amended, witness): a first-attempt failure with two attempts left,
an exhausted third attempt, and a `max_attempts = 1` task. -/
theorem download_retry_policy_amended_witness :
    ((1 : Nat) < 3 ∧
      (execute_download_finish
          { tid := 0, video_id := "v", status := DownloadStatus.downloading,
            attempts := 1, max_attempts := 3 } DownloadOutcome.failure).backoff_seconds
        = some (min (2 ^ 1) 30)) ∧
    (¬ (3 : Nat) < 3 ∧
      (execute_download_finish
          { tid := 0, video_id := "v", status := DownloadStatus.downloading,
            attempts := 3, max_attempts := 3 } DownloadOutcome.failure).failed_delta = 1) ∧
    ((execute_download_finish
        (execute_download_begin
          { tid := 1, video_id := "w", status := DownloadStatus.queued,
            attempts := 0, max_attempts := 1 }) DownloadOutcome.timeout).requeued
      = false) := by
  refine ⟨⟨by decide, ?_⟩, ⟨by decide, ?_⟩, ?_⟩
  · exact ((download_retry_policy_amended
      { tid := 0, video_id := "v", status := DownloadStatus.downloading,
        attempts := 1, max_attempts := 3 }).1 (by decide)).2.1
  · exact (((download_retry_policy_amended
      { tid := 0, video_id := "v", status := DownloadStatus.downloading,
        attempts := 3, max_attempts := 3 }).2.1 (by decide)
      DownloadOutcome.failure (Or.inl rfl)).2.1)
  · exact (((download_retry_policy_amended
      { tid := 1, video_id := "w", status := DownloadStatus.queued,
        attempts := 0, max_attempts := 1 }).2.2 rfl
      DownloadOutcome.timeout (Or.inr rfl)).1)

/-! ### Claim C7 — per-id download exclusivity -/

/-- C7: the spec's per-id lock (`self.download_locks` is created but never
acquired) does not hold in the code: after a failed attempt is re-queued,
the `finally:` block deregisters the id from `active_downloads`, so a new
`download_video` call during the retry interval creates a second task for
the same id, and two workers can then run both concurrently.  The state
`mgrS6`, reachable from a fresh manager, has two tasks for id `v` both in
DOWNLOADING. -/
theorem download_concurrent_same_id_reachable :
    ManagerReachable mgrInit mgrS6 ∧
    mgrS6.tasks.map (fun t => (t.video_id, t.status)) =
      [("v", DownloadStatus.downloading), ("v", DownloadStatus.downloading)] := by
  constructor
  · refine Relation.ReflTransGen.head (ManagerStep.request mgrInit "v" 0) ?_
    refine Relation.ReflTransGen.head (ManagerStep.pick mgrS1 (by decide) (by decide)) ?_
    refine Relation.ReflTransGen.head (ManagerStep.finish mgrS2 0 DownloadOutcome.failure 1
      ⟨{ tid := 0, video_id := "v", status := DownloadStatus.downloading,
         attempts := 1, max_attempts := 3 }, by decide, rfl⟩) ?_
    refine Relation.ReflTransGen.head (ManagerStep.request mgrS3 "v" 2) ?_
    refine Relation.ReflTransGen.head (ManagerStep.pick mgrS4 (by decide) (by decide)) ?_
    exact Relation.ReflTransGen.single (ManagerStep.pick mgrS5 (by decide) (by decide))
  · decide

/-! ### Claim C9 — idempotence of `download_video` per id -/

/-- C9 (counterexample): after task 0 for id `v` fails its first attempt and
is re-queued (remaining queued for retry), a second `download_video "v"`
call — the id is no longer in `active_downloads` — creates a second task:
the reachable state `mgrS4` holds two tasks for `v`, refuting "two calls for
the same id, including during a task's retry interval, never result in more
than one task existing for that id". -/
theorem download_duplicate_task_cex :
    ManagerReachable mgrInit mgrS4 ∧
    mgrS4.tasks.map (fun t => t.video_id) = ["v", "v"] ∧
    mgrS4.queue = [0, 1] := by
  refine ⟨?_, by decide, by decide⟩
  refine Relation.ReflTransGen.head (ManagerStep.request mgrInit "v" 0) ?_
  refine Relation.ReflTransGen.head (ManagerStep.pick mgrS1 (by decide) (by decide)) ?_
  refine Relation.ReflTransGen.head (ManagerStep.finish mgrS2 0 DownloadOutcome.failure 1
    ⟨{ tid := 0, video_id := "v", status := DownloadStatus.downloading,
       attempts := 1, max_attempts := 3 }, by decide, rfl⟩) ?_
  exact Relation.ReflTransGen.single (ManagerStep.request mgrS3 "v" 2)

theorem dictLookup_dictInsert_self {α : Type} (m : List (String × α)) (k : String) (v : α) :
    dictLookup (dictInsert m k v) k = some v := by
  induction m with
  | nil => simp [dictInsert, dictLookup]
  | cons p rest ih =>
    by_cases hpk : p.1 = k
    · simp [dictInsert, dictLookup, hpk]
    · simp [dictInsert, dictLookup, hpk, ih]

/-- A missed cache lookup stays a miss when repeated right away. -/
theorem get_cached_file_none_again (c : CacheState) (vid : String) (now now' : Nat)
    (h : (get_cached_file c vid now).1 = none) :
    (get_cached_file (get_cached_file c vid now).2 vid now').1 = none := by
  rcases hm : dictLookup c.metadata vid with _ | e
  · have h0 : get_cached_file c vid now = (none, c) := by
      unfold get_cached_file
      rw [hm]
    rw [h0]
    unfold get_cached_file
    rw [hm]
  · by_cases hd : (dictLookup c.disk e.filename).isSome = true
    · have h0 : get_cached_file c vid now = (some e.filename, mark_accessed c vid now) := by
        unfold get_cached_file
        rw [hm]
        simp [hd]
      rw [h0] at h
      simp at h
    · have h0 : get_cached_file c vid now
          = (none, { c with metadata := dictRemove c.metadata vid }) := by
        unfold get_cached_file
        rw [hm]
        simp [hd]
      rw [h0]
      unfold get_cached_file
      simp [dictLookup_dictRemove_self]

/-- C9 (amended): `download_video` returns the cached path (creating no
task) when the cache hits; creates nothing when the id is registered in
`active_downloads`; and otherwise creates exactly one queued task and
registers it — so an immediately repeated call creates no second task.  The
idempotence holds only while the task stays registered: the retry re-queue
deregisters it (see the counterexample). -/
theorem download_video_idempotent_amended (s : ManagerState) (vid : String)
    (now now' : Nat) :
    (∀ p, (get_cached_file s.cache vid now).1 = some p →
      (download_video s vid now).1 = some p ∧
      (download_video s vid now).2.tasks = s.tasks ∧
      (download_video s vid now).2.queue = s.queue ∧
      (download_video s vid now).2.active_downloads = s.active_downloads) ∧
    ((get_cached_file s.cache vid now).1 = none →
      (dictLookup s.active_downloads vid).isSome = true →
      (download_video s vid now).1 = none ∧
      (download_video s vid now).2.tasks = s.tasks ∧
      (download_video s vid now).2.queue = s.queue ∧
      (download_video s vid now).2.active_downloads = s.active_downloads) ∧
    ((get_cached_file s.cache vid now).1 = none →
      (dictLookup s.active_downloads vid).isSome = false →
      (download_video s vid now).1 = none ∧
      (download_video s vid now).2.tasks = s.tasks ++
        [{ tid := s.next_tid, video_id := vid, status := DownloadStatus.queued,
           attempts := 0, max_attempts := 3 }] ∧
      (download_video s vid now).2.queue = s.queue ++ [s.next_tid] ∧
      dictLookup (download_video s vid now).2.active_downloads vid = some s.next_tid ∧
      (download_video (download_video s vid now).2 vid now').2.tasks
        = (download_video s vid now).2.tasks) := by
  refine ⟨?_, ?_, ?_⟩
  · intro p hp
    simp only [download_video]
    rw [hp]
    exact ⟨rfl, rfl, rfl, rfl⟩
  · intro hmiss hact
    simp only [download_video]
    rw [hmiss]
    simp [hact]
  · intro hmiss hact
    have hact' : ¬ (dictLookup s.active_downloads vid).isSome = true := by
      rw [hact]; exact Bool.false_ne_true
    have hfirst : download_video s vid now =
        (none,
          { s with
            cache := (get_cached_file s.cache vid now).2,
            tasks := s.tasks ++
              [{ tid := s.next_tid, video_id := vid, status := DownloadStatus.queued,
                 attempts := 0, max_attempts := 3 }],
            active_downloads := dictInsert s.active_downloads vid s.next_tid,
            queue := s.queue ++ [s.next_tid],
            next_tid := s.next_tid + 1 }) := by
      simp only [download_video]
      rw [hmiss]
      simp [hact]
    rw [hfirst]
    refine ⟨rfl, rfl, rfl, dictLookup_dictInsert_self _ _ _, ?_⟩
    simp only [download_video]
    rcases hsecond : (get_cached_file (get_cached_file s.cache vid now).2 vid now').1 with
      _ | p
    · simp [dictLookup_dictInsert_self]
    · rfl

/-- C9 (amended, witness): a fresh manager (arm 3, id `v` neither cached nor
active, then a repeated call), the state `mgrS1` with `v` active (arm 2),
and a manager whose cache holds `u` (arm 1). -/
theorem download_video_idempotent_amended_witness :
    ((get_cached_file ({ mgrInit with cache := cacheOk } : ManagerState).cache "u" 7).1
        = some "fu" ∧
      (download_video ({ mgrInit with cache := cacheOk } : ManagerState) "u" 7).1
        = some "fu" ∧
      (download_video ({ mgrInit with cache := cacheOk } : ManagerState) "u" 7).2.tasks
        = mgrInit.tasks) ∧
    ((get_cached_file mgrS1.cache "v" 3).1 = none ∧
      (dictLookup mgrS1.active_downloads "v").isSome = true ∧
      (download_video mgrS1 "v" 3).2.tasks = mgrS1.tasks) ∧
    ((get_cached_file mgrInit.cache "v" 0).1 = none ∧
      (dictLookup mgrInit.active_downloads "v").isSome = false ∧
      (download_video mgrInit "v" 0).2.tasks = mgrInit.tasks ++
        [{ tid := 0, video_id := "v", status := DownloadStatus.queued,
           attempts := 0, max_attempts := 3 }] ∧
      (download_video (download_video mgrInit "v" 0).2 "v" 1).2.tasks
        = (download_video mgrInit "v" 0).2.tasks) := by
  refine ⟨⟨by decide, ?_, ?_⟩, ⟨by decide, by decide, ?_⟩, ⟨by decide, by decide, ?_, ?_⟩⟩
  · exact ((download_video_idempotent_amended
      ({ mgrInit with cache := cacheOk } : ManagerState) "u" 7 8).1 "fu" (by decide)).1
  · exact ((download_video_idempotent_amended
      ({ mgrInit with cache := cacheOk } : ManagerState) "u" 7 8).1 "fu" (by decide)).2.1
  · exact ((download_video_idempotent_amended mgrS1 "v" 3 4).2.1
      (by decide) (by decide)).2.1
  · exact ((download_video_idempotent_amended mgrInit "v" 0 1).2.2
      (by decide) (by decide)).2.1
  · exact ((download_video_idempotent_amended mgrInit "v" 0 1).2.2
      (by decide) (by decide)).2.2.2.2

/-! ### Claim C8 — playable-verification invariant -/

/-- C8 (counterexample): `update_album_playable_urls` checks only the
`found` flag, copying `embed_url` unchecked: a result with `found = true`
and no embed URL sets `playable_verified = 1` on a row whose embed URLs are
both NULL, breaking the invariant. -/
theorem playable_flag_without_embed_cex :
    ((update_album_playable_urls
        { youtube_embed_url := none, youtube_verified_title := none,
          youtube_verification_score := none, youtube_embed_type := none,
          bandcamp_embed_url := none, bandcamp_verified_title := none,
          bandcamp_verification_score := none, bandcamp_embed_code := none,
          playable_verified := false }
        (some { found := true, embed_url := none, title := none,
                match_score := none, embed_type := none, embed_code := none })
        none).1).playable_verified = true ∧
    ((update_album_playable_urls
        { youtube_embed_url := none, youtube_verified_title := none,
          youtube_verification_score := none, youtube_embed_type := none,
          bandcamp_embed_url := none, bandcamp_verified_title := none,
          bandcamp_verification_score := none, bandcamp_embed_code := none,
          playable_verified := false }
        (some { found := true, embed_url := none, title := none,
                match_score := none, embed_type := none, embed_code := none })
        none).1).youtube_embed_url = none ∧
    ¬ PlayableInvariant (update_album_playable_urls
        { youtube_embed_url := none, youtube_verified_title := none,
          youtube_verification_score := none, youtube_embed_type := none,
          bandcamp_embed_url := none, bandcamp_verified_title := none,
          bandcamp_verification_score := none, bandcamp_embed_code := none,
          playable_verified := false }
        (some { found := true, embed_url := none, title := none,
                match_score := none, embed_type := none, embed_code := none })
        none).1 := by
  exact ⟨by decide, by decide, by decide⟩

/-- C8 (amended): `update_album_playable_urls` sets `playable_verified`
whenever at least one result has `found = true` (the embed URL itself is not
checked by the store); the invariant is preserved provided every `found`
result actually carries its embed URL — which holds for all outputs of
`search_youtube_directly`, whose `found = true` returns always embed a URL. -/
theorem playable_invariant_amended (row : AlbumRow)
    (yt bc : Option VerificationResult)
    (hrow : PlayableInvariant row)
    (hyt : ∀ r, yt = some r → r.found = true → r.embed_url.isSome = true)
    (hbc : ∀ r, bc = some r → r.found = true → r.embed_url.isSome = true) :
    PlayableInvariant (update_album_playable_urls row yt bc).1 ∧
    ((update_album_playable_urls row yt bc).1.playable_verified = true ↔
      (row.playable_verified = true ∨
        (∃ r, yt = some r ∧ r.found = true) ∨
        (∃ r, bc = some r ∧ r.found = true))) := by
  rcases yt with _ | r
  · rcases bc with _ | q
    · refine ⟨?_, ?_⟩ <;> simp [update_album_playable_urls, PlayableInvariant] at hrow ⊢ <;>
        tauto
    · by_cases hq : q.found = true
      · have hqe := hbc q rfl hq
        refine ⟨?_, ?_⟩ <;>
          simp [update_album_playable_urls, PlayableInvariant, hq, hqe]
      · have hq' : q.found = false := by
          rcases hqf : q.found with _ | _
          · rfl
          · exact absurd hqf hq
        refine ⟨?_, ?_⟩ <;>
          simp [update_album_playable_urls, PlayableInvariant, hq'] at hrow ⊢ <;> tauto
  · rcases bc with _ | q
    · by_cases hr : r.found = true
      · have hre := hyt r rfl hr
        refine ⟨?_, ?_⟩ <;>
          simp [update_album_playable_urls, PlayableInvariant, hr, hre]
      · have hr' : r.found = false := by
          rcases hrf : r.found with _ | _
          · rfl
          · exact absurd hrf hr
        refine ⟨?_, ?_⟩ <;>
          simp [update_album_playable_urls, PlayableInvariant, hr'] at hrow ⊢ <;> tauto
    · by_cases hr : r.found = true <;> by_cases hq : q.found = true
      · have hre := hyt r rfl hr
        have hqe := hbc q rfl hq
        refine ⟨?_, ?_⟩ <;>
          simp [update_album_playable_urls, PlayableInvariant, hr, hq, hqe]
      · have hre := hyt r rfl hr
        have hq' : q.found = false := by
          rcases hqf : q.found with _ | _
          · rfl
          · exact absurd hqf hq
        refine ⟨?_, ?_⟩ <;>
          simp [update_album_playable_urls, PlayableInvariant, hr, hq', hre]
      · have hqe := hbc q rfl hq
        have hr' : r.found = false := by
          rcases hrf : r.found with _ | _
          · rfl
          · exact absurd hrf hr
        refine ⟨?_, ?_⟩ <;>
          simp [update_album_playable_urls, PlayableInvariant, hr', hq, hqe]
      · have hr' : r.found = false := by
          rcases hrf : r.found with _ | _
          · rfl
          · exact absurd hrf hr
        have hq' : q.found = false := by
          rcases hqf : q.found with _ | _
          · rfl
          · exact absurd hqf hq
        refine ⟨?_, ?_⟩ <;>
          simp [update_album_playable_urls, PlayableInvariant, hr', hq'] at hrow ⊢ <;>
          tauto

/-- C8 (amended, witness): a youtube result with `found` and an embed URL on
an all-NULL row. -/
theorem playable_invariant_amended_witness :
    (PlayableInvariant
        { youtube_embed_url := none, youtube_verified_title := none,
          youtube_verification_score := none, youtube_embed_type := none,
          bandcamp_embed_url := none, bandcamp_verified_title := none,
          bandcamp_verification_score := none, bandcamp_embed_code := none,
          playable_verified := false } ∧
      (some { found := true, embed_url := some "https://e", title := none,
              match_score := none, embed_type := none, embed_code := none }
          : Option VerificationResult).isSome = true) ∧
    PlayableInvariant (update_album_playable_urls
        { youtube_embed_url := none, youtube_verified_title := none,
          youtube_verification_score := none, youtube_embed_type := none,
          bandcamp_embed_url := none, bandcamp_verified_title := none,
          bandcamp_verification_score := none, bandcamp_embed_code := none,
          playable_verified := false }
        (some { found := true, embed_url := some "https://e", title := none,
                match_score := none, embed_type := none, embed_code := none })
        none).1 := by
  refine ⟨⟨by decide, by decide⟩, ?_⟩
  exact (playable_invariant_amended
    { youtube_embed_url := none, youtube_verified_title := none,
      youtube_verification_score := none, youtube_embed_type := none,
      bandcamp_embed_url := none, bandcamp_verified_title := none,
      bandcamp_verification_score := none, bandcamp_embed_code := none,
      playable_verified := false }
    (some { found := true, embed_url := some "https://e", title := none,
            match_score := none, embed_type := none, embed_code := none })
    none (by decide)
    (fun r hr _ => by cases hr; decide)
    (fun r hr => by cases hr)).1
